import Mathlib

/-!
Verification development for the prompt-assembly / character-card codec core
of a mobile SillyTavern-style roleplay client (TypeScript sources).

The TypeScript modules are shallowly embedded as executable Lean definitions:

* `Codec`   — character-card parsing/serialization (`parser.ts`) and
  PNG `tEXt`-chunk embedding/extraction (`png-embed.ts`).  JavaScript
  strings are modelled as lists of UTF-16 code units (`JStr := List Nat`),
  parsed JSON values as the `Json` inductive, and the platform primitives
  `JSON.stringify` / `JSON.parse` / `btoa` / `atob` as executable Lean
  functions over those types (ECMA-style serializer with an optional gap,
  a fuel-indexed JSON text parser, RFC 4648 base64, with `btoa` failing on
  code units above 255 exactly as the Web API does).
* `Tok`     — token estimation and truncation (`tokenizer.ts`).
* `WInfo`   — world-info keyword matching and scanning (`worldinfo` matcher).
* `PBuild`  — prompt construction (`prompt-builder.ts`).
* `Chat`    — chat-session forking (`chat-manager.ts`); sessions are pure
  values because the storage layer serializes them through JSON/SQLite.

JavaScript's stable `Array.prototype.sort` is modelled by a stable insertion
sort (`stableSort`), proved to sort, permute, and preserve the relative
order of comparator-equal elements.
-/

/-- Stable insertion of `a` into `l`: `a` is placed before the first element
`b` with `le a b` (comparator value ≤ 0), hence after all elements that
compare strictly before it and after earlier comparator-equal elements'
predecessors — the insertion step of a stable sort. -/
def stableInsert {α : Type} (le : α → α → Bool) (a : α) : List α → List α
  | [] => [a]
  | b :: l => if le a b then a :: b :: l else b :: stableInsert le a l

/-- Stable insertion sort, the model of JavaScript's (ES2019+) stable
`Array.prototype.sort` with a comparator: `le a b` means the comparator
returned a value ≤ 0 on `(a, b)`. -/
def stableSort {α : Type} (le : α → α → Bool) : List α → List α
  | [] => []
  | a :: l => stableInsert le a (stableSort le l)

theorem stableInsert_perm {α : Type} (le : α → α → Bool) (a : α) (l : List α) :
    List.Perm (stableInsert le a l) (a :: l) := by
  induction l with
  | nil => simp [stableInsert]
  | cons b t ih =>
    by_cases h : le a b
    · simp [stableInsert, h]
    · simp only [stableInsert, h, if_neg, Bool.false_eq_true, if_false]
      exact (List.Perm.cons b ih).trans (List.Perm.swap a b t)

theorem stableSort_perm {α : Type} (le : α → α → Bool) (l : List α) :
    List.Perm (stableSort le l) l := by
  induction l with
  | nil => simp [stableSort]
  | cons a t ih =>
    exact (stableInsert_perm le a (stableSort le t)).trans (List.Perm.cons a ih)

theorem mem_stableInsert {α : Type} (le : α → α → Bool) (a x : α) (l : List α) :
    x ∈ stableInsert le a l ↔ x = a ∨ x ∈ l := by
  rw [(stableInsert_perm le a l).mem_iff, List.mem_cons]

theorem stableInsert_pairwise {α : Type} {le : α → α → Bool}
    (htot : ∀ a b, le a b || le b a)
    (htrans : ∀ a b c, le a b = true → le b c = true → le a c = true)
    (a : α) {l : List α} (hl : l.Pairwise (fun x y => le x y = true)) :
    (stableInsert le a l).Pairwise (fun x y => le x y = true) := by
  induction l with
  | nil => simp [stableInsert]
  | cons b t ih =>
    rcases hl with _ | ⟨hb, ht⟩
    by_cases h : le a b
    · simp only [stableInsert, h, if_true]
      refine List.Pairwise.cons ?_ (List.Pairwise.cons hb ht)
      intro x hx
      rcases List.mem_cons.mp hx with rfl | hx
      · exact h
      · exact htrans a b x h (hb x hx)
    · simp only [stableInsert, h, Bool.false_eq_true, if_false]
      refine List.Pairwise.cons ?_ (ih ht)
      intro x hx
      rcases (mem_stableInsert le a x t).mp hx with rfl | hx
      · have := htot x b
        simp [h] at this
        exact this
      · exact hb x hx

theorem stableSort_pairwise {α : Type} {le : α → α → Bool}
    (htot : ∀ a b, le a b || le b a)
    (htrans : ∀ a b c, le a b = true → le b c = true → le a c = true)
    (l : List α) :
    (stableSort le l).Pairwise (fun x y => le x y = true) := by
  induction l with
  | nil => simp [stableSort]
  | cons a t ih => exact stableInsert_pairwise htot htrans a ih

theorem stableInsert_filter_pos {α : Type} {le : α → α → Bool} {f : α → Bool}
    (hcls : ∀ x y, f x = true → f y = true → le x y = true)
    {a : α} (ha : f a = true) (l : List α) :
    (stableInsert le a l).filter f = a :: l.filter f := by
  induction l with
  | nil => simp [stableInsert, ha]
  | cons b t ih =>
    by_cases h : le a b
    · simp [stableInsert, h, ha]
    · have hb : f b = false := by
        by_contra hb
        simp only [Bool.not_eq_false] at hb
        exact h (hcls a b ha hb)
      simp [stableInsert, h, hb, ih]

theorem stableInsert_filter_neg {α : Type} {le : α → α → Bool} {f : α → Bool}
    {a : α} (ha : f a = false) (l : List α) :
    (stableInsert le a l).filter f = l.filter f := by
  induction l with
  | nil => simp [stableInsert, ha]
  | cons b t ih =>
    by_cases h : le a b
    · simp [stableInsert, h, ha]
    · simp only [stableInsert, h, Bool.false_eq_true, if_false, List.filter_cons, ih]

/-- Stability of `stableSort`: the elements of any comparator-equivalence
class (`f` selecting a class on which `le` always holds) appear in the
sorted output in exactly their original relative order. -/
theorem stableSort_filter {α : Type} {le : α → α → Bool} {f : α → Bool}
    (hcls : ∀ x y, f x = true → f y = true → le x y = true)
    (l : List α) :
    (stableSort le l).filter f = l.filter f := by
  induction l with
  | nil => simp [stableSort]
  | cons a t ih =>
    by_cases ha : f a
    · rw [stableSort, stableInsert_filter_pos hcls ha, ih, List.filter_cons_of_pos ha]
    · rw [stableSort, stableInsert_filter_neg (Bool.not_eq_true _ ▸ ha), ih]
      simp [ha]

/-- `sub.isPrefixOf`-based substring test over lists: the model of
JavaScript's `String.prototype.includes`. -/
def listContainsSeq {α : Type} [BEq α] (sub : List α) : List α → Bool
  | [] => sub.isPrefixOf []
  | a :: t => sub.isPrefixOf (a :: t) || listContainsSeq sub t

namespace Codec

/-- JavaScript strings, modelled as lists of UTF-16 code units
(`charCodeAt` values).  All TypeScript string data in the codec module
lives in this type. -/
abbrev JStr := List Nat

/-- Code units of a Lean string literal (used for ASCII literals of the
TypeScript sources, e.g. `"chara_card_v2"`). -/
def jstr (s : String) : JStr := s.data.map Char.toNat

/-! A parsed JSON value — the result type of the platform `JSON.parse` as the
codec uses it.  The sources only ever produce/consume strings, booleans,
nulls, arrays and objects, so JSON numbers are omitted from the model.
Arrays and objects are mutual inductives so that all functions over `Json`
are plain structural recursions. -/
mutual
inductive Json where
  | null : Json
  | bool (b : Bool) : Json
  | str (s : JStr) : Json
  | arr (xs : JsonArr) : Json
  | obj (fs : JsonObj) : Json
inductive JsonArr where
  | nil : JsonArr
  | cons (hd : Json) (tl : JsonArr) : JsonArr
inductive JsonObj where
  | nil : JsonObj
  | cons (key : JStr) (val : Json) (tl : JsonObj) : JsonObj
end

/-- Property lookup on a parsed JSON object.  `JSON.parse` keeps the last
of duplicate keys, so the lookup returns the last binding. -/
def JsonObj.get? : JsonObj → JStr → Option Json
  | .nil, _ => none
  | .cons k v tl, key =>
    match JsonObj.get? tl key with
    | some r => some r
    | none => if k = key then some v else none

/-- `obj.key` on a JSON value: `undefined` (`none`) unless the value is an
object with that property. -/
def Json.get? : Json → JStr → Option Json
  | .obj fs, key => fs.get? key
  | _, _ => none

/-- `'key' in value` (only objects carry properties in the model). -/
def Json.hasField (j : Json) (key : JStr) : Bool := (j.get? key).isSome

/-- JavaScript truthiness of a parsed JSON value (`''`, `null` and `false`
are falsy; arrays and objects are always truthy). -/
def Json.truthy : Json → Bool
  | .null => false
  | .bool b => b
  | .str s => !s.isEmpty
  | .arr _ => true
  | .obj _ => true

/-- `value || other` on JSON values (JavaScript's short-circuit or). -/
def jsOr (a b : Json) : Json := if a.truthy then a else b

/-- `obj.key` as a value, with `undefined` collapsed to `null` (both are
falsy and the codec only ever distinguishes them via `in`, modelled by
`Json.hasField`). -/
def Json.getD (j : Json) (key : JStr) : Json := (j.get? key).getD .null

/-! `String(v)` for the modelled JSON fragment: `Array.prototype.toString`
joins the stringified elements with commas (`null` elements become the
empty string), and plain objects print as `[object Object]`. -/
mutual
def Json.jsToString : Json → JStr
  | .null => jstr "null"
  | .bool true => jstr "true"
  | .bool false => jstr "false"
  | .str s => s
  | .arr xs => JsonArr.jsToStringElems xs
  | .obj _ => jstr "[object Object]"
def JsonArr.jsToStringElems : JsonArr → JStr
  | .nil => []
  | .cons x .nil => Json.jsToStringElem x
  | .cons x (.cons y tl) =>
    Json.jsToStringElem x ++ [44] ++ JsonArr.jsToStringElems (.cons y tl)
def Json.jsToStringElem : Json → JStr
  | .null => []
  | j => Json.jsToString j
end

/-- JSON whitespace (space, tab, line feed, carriage return). -/
def isWsUnit (u : Nat) : Bool := u == 32 || u == 9 || u == 10 || u == 13

/-- A code-unit list consisting solely of JSON whitespace. -/
def wsOnly (l : JStr) : Bool := l.all isWsUnit

/-- Lower-case hex digit of `n < 16`, as emitted by `JSON.stringify` in
`\u00xx` escapes. -/
def hexDigit (n : Nat) : Nat := if n < 10 then 48 + n else 87 + n

/-- `QuoteJSONString`'s escape of a single code unit: `\"`, `\\`, the
shorthand control escapes, `\u00xx` for other control characters, and all
other units verbatim. -/
def escapeUnit (u : Nat) : JStr :=
  if u = 34 then [92, 34]
  else if u = 92 then [92, 92]
  else if u = 8 then [92, 98]
  else if u = 9 then [92, 116]
  else if u = 10 then [92, 110]
  else if u = 12 then [92, 102]
  else if u = 13 then [92, 114]
  else if u < 32 then [92, 117, 48, 48, hexDigit (u / 16), hexDigit (u % 16)]
  else [u]

/-- `QuoteJSONString`: a double-quoted, escaped JSON string literal. -/
def quoteStr (s : JStr) : JStr :=
  34 :: s.foldr (fun u acc => escapeUnit u ++ acc) [34]

/-- Whitespace emitted after an opening bracket or separator of a non-empty
serialized array/object: nothing in compact mode, a newline plus the deeper
indent with a gap (ECMA `SerializeJSONArray`/`SerializeJSONObject`). -/
def gapWs (gap indent : JStr) : JStr :=
  if gap.isEmpty then [] else 10 :: (indent ++ gap)

/-- Opening token of a non-empty serialized array/object. -/
def openTok (b : Nat) (gap indent : JStr) : JStr := b :: gapWs gap indent

/-- Element/member separator: `,`, or `,\n` plus the deeper indent. -/
def sepTok (gap indent : JStr) : JStr := 44 :: gapWs gap indent

/-- Closing token: the bracket, preceded with a non-empty gap by a newline
and the shallower indent. -/
def closeTok (b : Nat) (gap indent : JStr) : JStr :=
  (if gap.isEmpty then [] else 10 :: indent) ++ [b]

/-- `:` or `: ` after an object key, depending on the gap. -/
def colonTok (gap : JStr) : JStr :=
  58 :: (if gap.isEmpty then [] else [32])

/-! The platform `JSON.stringify(value, null, gapText)`: `gap = []` is the
compact form, `gap = jstr "  "` the 2-space pretty-printed form the export
path uses. -/
mutual
def strJson (gap indent : JStr) : Json → JStr
  | .null => [110, 117, 108, 108]
  | .bool true => [116, 114, 117, 101]
  | .bool false => [102, 97, 108, 115, 101]
  | .str s => quoteStr s
  | .arr .nil => [91, 93]
  | .arr (.cons x tl) =>
    openTok 91 gap indent ++ strJson gap (indent ++ gap) x ++
      strArrRest gap indent tl ++ closeTok 93 gap indent
  | .obj .nil => [123, 125]
  | .obj (.cons k v tl) =>
    openTok 123 gap indent ++ quoteStr k ++ colonTok gap ++
      strJson gap (indent ++ gap) v ++ strObjRest gap indent tl ++
      closeTok 125 gap indent
def strArrRest (gap indent : JStr) : JsonArr → JStr
  | .nil => []
  | .cons x tl =>
    sepTok gap indent ++ strJson gap (indent ++ gap) x ++ strArrRest gap indent tl
def strObjRest (gap indent : JStr) : JsonObj → JStr
  | .nil => []
  | .cons k v tl =>
    sepTok gap indent ++ quoteStr k ++ colonTok gap ++
      strJson gap (indent ++ gap) v ++ strObjRest gap indent tl
end

/-- Skip leading JSON whitespace. -/
def skipWs : List Nat → List Nat
  | [] => []
  | c :: r => if isWsUnit c then skipWs r else c :: r

/-- Value of a hex digit code unit (`0-9a-fA-F`). -/
def hexVal? (u : Nat) : Option Nat :=
  if 48 ≤ u ∧ u ≤ 57 then some (u - 48)
  else if 97 ≤ u ∧ u ≤ 102 then some (u - 87)
  else if 65 ≤ u ∧ u ≤ 70 then some (u - 55)
  else none

/-- Read the four hex digits of a `\uXXXX` escape. -/
def readHex4 : List Nat → Option (Nat × List Nat)
  | a :: b :: c :: d :: r => do
    let va ← hexVal? a
    let vb ← hexVal? b
    let vc ← hexVal? c
    let vd ← hexVal? d
    some (va * 4096 + vb * 256 + vc * 16 + vd, r)
  | _ => none

/-- Decoded code unit of a single-character escape `\k`, when `k` is one of
the eight simple escapes. -/
def escCode? (k : Nat) : Option Nat :=
  if k = 34 then some 34
  else if k = 92 then some 92
  else if k = 47 then some 47
  else if k = 98 then some 8
  else if k = 102 then some 12
  else if k = 110 then some 10
  else if k = 114 then some 13
  else if k = 116 then some 9
  else none

/-- Parse the body of a JSON string literal (after the opening quote) up to
and including the closing quote, returning the decoded code units. -/
def parseStrBody : List Nat → Option (JStr × List Nat)
  | [] => none
  | c :: r =>
    if c = 34 then some ([], r)
    else if c = 92 then
      match r with
      | [] => none
      | k :: r1 =>
        if k = 117 then
          match r1 with
          | a :: b :: c2 :: d :: r2 =>
            (match hexVal? a, hexVal? b, hexVal? c2, hexVal? d with
             | some va, some vb, some vc, some vd =>
               (parseStrBody r2).map
                 (fun p => ((va * 4096 + vb * 256 + vc * 16 + vd) :: p.1, p.2))
             | _, _, _, _ => none)
          | _ => none
        else
          match escCode? k with
          | some u => (parseStrBody r1).map (fun p => (u :: p.1, p.2))
          | none => none
    else if c < 32 then none
    else (parseStrBody r).map (fun p => (c :: p.1, p.2))

/-- The three mutually recursive consumers of the JSON text grammar: a
value, the rest of a non-empty array (from the separator or closing
bracket on), and the rest of a non-empty object. -/
structure JParsers where
  val : List Nat → Option (Json × List Nat)
  arrRest : List Nat → Option (JsonArr × List Nat)
  objRest : List Nat → Option (JsonObj × List Nat)

/-- Fuel-indexed recursive-descent JSON parser.  One unit of fuel is spent
per parsed value and per array/object continuation, so any input of `n`
code units parses within fuel `n + 1`. -/
def jsonParsers : Nat → JParsers
  | 0 => ⟨fun _ => none, fun _ => none, fun _ => none⟩
  | fuel + 1 =>
    let lower := jsonParsers fuel
    { val := fun s =>
        match skipWs s with
        | 110 :: 117 :: 108 :: 108 :: r => some (.null, r)
        | 116 :: 114 :: 117 :: 101 :: r => some (.bool true, r)
        | 102 :: 97 :: 108 :: 115 :: 101 :: r => some (.bool false, r)
        | 34 :: r => (parseStrBody r).map (fun p => (.str p.1, p.2))
        | 91 :: r =>
          (if (skipWs r).head? = some 93 then some (.arr .nil, (skipWs r).tail)
           else do
             let (x, r1) ← lower.val r
             let (tl, r2) ← lower.arrRest r1
             some (.arr (.cons x tl), r2))
        | 123 :: r =>
          (if (skipWs r).head? = some 125 then some (.obj .nil, (skipWs r).tail)
           else
             match skipWs r with
             | 34 :: r' => do
               let (k, r1) ← parseStrBody r'
               match skipWs r1 with
               | 58 :: r2 => do
                 let (v, r3) ← lower.val r2
                 let (tl, r4) ← lower.objRest r3
                 some (.obj (.cons k v tl), r4)
               | _ => none
             | _ => none)
        | _ => none,
      arrRest := fun s =>
        match skipWs s with
        | 93 :: r => some (.nil, r)
        | 44 :: r => do
          let (x, r1) ← lower.val r
          let (tl, r2) ← lower.arrRest r1
          some (.cons x tl, r2)
        | _ => none,
      objRest := fun s =>
        match skipWs s with
        | 125 :: r => some (.nil, r)
        | 44 :: r =>
          (match skipWs r with
           | 34 :: r' => do
             let (k, r1) ← parseStrBody r'
             match skipWs r1 with
             | 58 :: r2 => do
               let (v, r3) ← lower.val r2
               let (tl, r4) ← lower.objRest r3
               some (.cons k v tl, r4)
             | _ => none
           | _ => none)
        | _ => none }

/-- The platform `JSON.parse`: parse one value and require only trailing
whitespace after it. -/
def jsonParse (input : List Nat) : Option Json :=
  match (jsonParsers (input.length + 1)).val input with
  | some (j, rest) => if skipWs rest = [] then some j else none
  | none => none


/-! Correctness of the parser on serializer output: `JSON.parse` inverts
`JSON.stringify` for every modelled JSON value and every whitespace gap. -/

theorem skipWs_cons_ws {c : Nat} (h : isWsUnit c = true) (l : List Nat) :
    skipWs (c :: l) = skipWs l := by simp [skipWs, h]

theorem skipWs_cons_not_ws {c : Nat} (h : isWsUnit c = false) (l : List Nat) :
    skipWs (c :: l) = c :: l := by simp [skipWs, h]

theorem skipWs_append_ws {ws : JStr} (h : wsOnly ws = true) (l : List Nat) :
    skipWs (ws ++ l) = skipWs l := by
  induction ws with
  | nil => simp
  | cons c t ih =>
    rw [wsOnly, List.all_cons, Bool.and_eq_true] at h
    rw [List.cons_append, skipWs_cons_ws h.1, ih h.2]

theorem wsOnly_append {a b : JStr} (ha : wsOnly a = true) (hb : wsOnly b = true) :
    wsOnly (a ++ b) = true := by
  rw [wsOnly] at ha hb ⊢
  simp [List.all_append, ha, hb]

theorem wsOnly_gapWs {gap indent : JStr} (hg : wsOnly gap = true)
    (hi : wsOnly indent = true) : wsOnly (gapWs gap indent) = true := by
  rw [gapWs]
  split
  · rfl
  · simp only [wsOnly, List.all_cons, Bool.and_eq_true]
    exact ⟨rfl, by rw [← wsOnly]; exact wsOnly_append hi hg⟩

theorem hexVal?_hexDigit {n : Nat} (h : n < 16) : hexVal? (hexDigit n) = some n := by
  by_cases h10 : n < 10
  · rw [hexDigit, if_pos h10, hexVal?, if_pos ⟨by omega, by omega⟩]
    congr 1
    omega
  · rw [hexDigit, if_neg h10, hexVal?, if_neg (by omega), if_pos ⟨by omega, by omega⟩]
    congr 1
    omega

theorem parseStrBody_quote (r : List Nat) : parseStrBody (34 :: r) = some ([], r) := by
  rw [parseStrBody.eq_def]
  simp

theorem parseStrBody_esc {k u : Nat} (hk117 : k ≠ 117) (hk : escCode? k = some u)
    (r : List Nat) :
    parseStrBody (92 :: k :: r) = (parseStrBody r).map (fun p => (u :: p.1, p.2)) := by
  rw [parseStrBody.eq_def]
  simp [hk117, hk]

theorem parseStrBody_uni {a b c d va vb vc vd : Nat} (ha : hexVal? a = some va)
    (hb : hexVal? b = some vb) (hc : hexVal? c = some vc) (hd : hexVal? d = some vd)
    (r : List Nat) :
    parseStrBody (92 :: 117 :: a :: b :: c :: d :: r) =
      (parseStrBody r).map (fun p => ((va * 4096 + vb * 256 + vc * 16 + vd) :: p.1, p.2)) := by
  rw [parseStrBody.eq_def]
  simp [ha, hb, hc, hd]

theorem parseStrBody_raw {c : Nat} (h34 : c ≠ 34) (h92 : c ≠ 92) (hc : ¬ c < 32)
    (r : List Nat) :
    parseStrBody (c :: r) = (parseStrBody r).map (fun p => (c :: p.1, p.2)) := by
  rw [parseStrBody.eq_def]
  simp [h34, h92, hc]

theorem parseStrBody_escTail (s : JStr) (rest : List Nat) :
    parseStrBody (s.foldr (fun u acc => escapeUnit u ++ acc) [34] ++ rest) =
      some (s, rest) := by
  induction s with
  | nil => simp [parseStrBody_quote]
  | cons u t ih =>
    simp only [List.foldr_cons, List.append_assoc]
    by_cases h34 : u = 34
    · subst h34
      have he : escapeUnit 34 = [92, 34] := rfl
      rw [he, List.cons_append, List.cons_append, List.nil_append,
        parseStrBody_esc (by omega) (rfl : escCode? 34 = some 34), ih]
      rfl
    by_cases h92 : u = 92
    · subst h92
      have he : escapeUnit 92 = [92, 92] := rfl
      rw [he, List.cons_append, List.cons_append, List.nil_append,
        parseStrBody_esc (by omega) (rfl : escCode? 92 = some 92), ih]
      rfl
    by_cases h8 : u = 8
    · subst h8
      have he : escapeUnit 8 = [92, 98] := rfl
      rw [he, List.cons_append, List.cons_append, List.nil_append,
        parseStrBody_esc (by omega) (rfl : escCode? 98 = some 8), ih]
      rfl
    by_cases h9 : u = 9
    · subst h9
      have he : escapeUnit 9 = [92, 116] := rfl
      rw [he, List.cons_append, List.cons_append, List.nil_append,
        parseStrBody_esc (by omega) (rfl : escCode? 116 = some 9), ih]
      rfl
    by_cases h10 : u = 10
    · subst h10
      have he : escapeUnit 10 = [92, 110] := rfl
      rw [he, List.cons_append, List.cons_append, List.nil_append,
        parseStrBody_esc (by omega) (rfl : escCode? 110 = some 10), ih]
      rfl
    by_cases h12 : u = 12
    · subst h12
      have he : escapeUnit 12 = [92, 102] := rfl
      rw [he, List.cons_append, List.cons_append, List.nil_append,
        parseStrBody_esc (by omega) (rfl : escCode? 102 = some 12), ih]
      rfl
    by_cases h13 : u = 13
    · subst h13
      have he : escapeUnit 13 = [92, 114] := rfl
      rw [he, List.cons_append, List.cons_append, List.nil_append,
        parseStrBody_esc (by omega) (rfl : escCode? 114 = some 13), ih]
      rfl
    by_cases hc : u < 32
    · have he : escapeUnit u =
          [92, 117, 48, 48, hexDigit (u / 16), hexDigit (u % 16)] := by
        rw [escapeUnit, if_neg h34, if_neg h92, if_neg h8, if_neg h9, if_neg h10,
          if_neg h12, if_neg h13, if_pos hc]
      have h48 : hexVal? 48 = some 0 := rfl
      rw [he]
      simp only [List.cons_append, List.nil_append]
      rw [parseStrBody_uni h48 h48 (hexVal?_hexDigit (by omega))
        (hexVal?_hexDigit (by omega)), ih]
      have huv : u / 16 * 16 + u % 16 = u := by omega
      simp [huv]
    · have he : escapeUnit u = [u] := by
        rw [escapeUnit, if_neg h34, if_neg h92, if_neg h8, if_neg h9, if_neg h10,
          if_neg h12, if_neg h13, if_neg hc]
      rw [he, List.cons_append, List.nil_append,
        parseStrBody_raw h34 h92 hc, ih]
      rfl

/-! Fuel sufficient to parse a serialized value: one unit per value and per
array/object continuation, combined with `max` over siblings. -/
mutual
def jfuel : Json → Nat
  | .null => 1
  | .bool _ => 1
  | .str _ => 1
  | .arr .nil => 1
  | .arr (.cons x tl) => 1 + max (jfuel x) (afuel tl)
  | .obj .nil => 1
  | .obj (.cons _ v tl) => 1 + max (jfuel v) (ofuel tl)
def afuel : JsonArr → Nat
  | .nil => 1
  | .cons x tl => 1 + max (jfuel x) (afuel tl)
def ofuel : JsonObj → Nat
  | .nil => 1
  | .cons _ v tl => 1 + max (jfuel v) (ofuel tl)
end

theorem jfuel_pos (j : Json) : 1 ≤ jfuel j := by
  cases j with
  | null => simp [jfuel]
  | bool b => simp [jfuel]
  | str s => simp [jfuel]
  | arr xs => cases xs <;> simp [jfuel]
  | obj fs => cases fs <;> simp [jfuel]

theorem afuel_pos (xs : JsonArr) : 1 ≤ afuel xs := by
  cases xs <;> simp [afuel]

theorem ofuel_pos (fs : JsonObj) : 1 ≤ ofuel fs := by
  cases fs <;> simp [ofuel]

theorem strJson_head (gap indent : JStr) (j : Json) :
    ∃ c t, strJson gap indent j = c :: t ∧ isWsUnit c = false ∧ c ≠ 93 ∧ c ≠ 125 := by
  cases j with
  | null => exact ⟨110, _, rfl, rfl, by omega, by omega⟩
  | bool b =>
    cases b
    · exact ⟨102, _, rfl, rfl, by omega, by omega⟩
    · exact ⟨116, _, rfl, rfl, by omega, by omega⟩
  | str s => exact ⟨34, _, rfl, rfl, by omega, by omega⟩
  | arr xs =>
    cases xs with
    | nil => exact ⟨91, _, rfl, rfl, by omega, by omega⟩
    | cons x tl =>
      exact ⟨91, gapWs gap indent ++ strJson gap (indent ++ gap) x ++
        strArrRest gap indent tl ++ closeTok 93 gap indent,
        by simp [strJson, openTok], rfl, by omega, by omega⟩
  | obj fs =>
    cases fs with
    | nil => exact ⟨123, _, rfl, rfl, by omega, by omega⟩
    | cons k v tl =>
      exact ⟨123, gapWs gap indent ++ quoteStr k ++ colonTok gap ++
        strJson gap (indent ++ gap) v ++ strObjRest gap indent tl ++
        closeTok 125 gap indent,
        by simp [strJson, openTok], rfl, by omega, by omega⟩

theorem skipWs_strJson_append (gap indent : JStr) (j : Json) (r : List Nat) :
    skipWs (strJson gap indent j ++ r) = strJson gap indent j ++ r := by
  obtain ⟨c, t, he, hws, -, -⟩ := strJson_head gap indent j
  rw [he, List.cons_append, skipWs_cons_not_ws hws]

theorem strJson_append_head_ne_93 (gap indent : JStr) (j : Json) (r : List Nat) :
    ¬ (strJson gap indent j ++ r).head? = some 93 := by
  obtain ⟨c, t, he, -, h93, -⟩ := strJson_head gap indent j
  rw [he, List.cons_append, List.head?_cons]
  simp [h93]

theorem strJson_append_head_ne_125 (gap indent : JStr) (j : Json) (r : List Nat) :
    ¬ (strJson gap indent j ++ r).head? = some 125 := by
  obtain ⟨c, t, he, -, -, h125⟩ := strJson_head gap indent j
  rw [he, List.cons_append, List.head?_cons]
  simp [h125]

theorem wsOnly_closeWs {gap indent : JStr} (hi : wsOnly indent = true) :
    wsOnly (if gap.isEmpty then ([] : JStr) else 10 :: indent) = true := by
  split
  · rfl
  · simp only [wsOnly, List.all_cons, Bool.and_eq_true]
    exact ⟨rfl, hi⟩

theorem wsOnly_colonWs (gap : JStr) :
    wsOnly (if gap.isEmpty then ([] : JStr) else [32]) = true := by
  split <;> rfl

mutual
theorem parseVal_str (j : Json) (f : Nat) (gap indent ws rest : List Nat)
    (hf : jfuel j ≤ f) (hg : wsOnly gap = true) (hi : wsOnly indent = true)
    (hw : wsOnly ws = true) :
    (jsonParsers f).val (ws ++ strJson gap indent j ++ rest) = some (j, rest) := by
  cases f with
  | zero => exact absurd hf (by have := jfuel_pos j; omega)
  | succ f' =>
    cases j with
    | null =>
      simp only [strJson, jsonParsers, List.append_assoc, List.cons_append,
        List.nil_append]
      rw [skipWs_append_ws hw, skipWs_cons_not_ws (by rfl)]
    | bool b =>
      cases b <;>
        · simp only [strJson, jsonParsers, List.append_assoc, List.cons_append,
            List.nil_append]
          rw [skipWs_append_ws hw, skipWs_cons_not_ws (by rfl)]
    | str s =>
      simp only [strJson, quoteStr, jsonParsers, List.append_assoc,
        List.cons_append, List.nil_append]
      rw [skipWs_append_ws hw, skipWs_cons_not_ws (by rfl)]
      simp [parseStrBody_escTail]
    | arr xs =>
      cases xs with
      | nil =>
        simp only [strJson, jsonParsers, List.append_assoc, List.cons_append,
          List.nil_append]
        rw [skipWs_append_ws hw, skipWs_cons_not_ws (by rfl)]
        simp [skipWs_cons_not_ws (show isWsUnit 93 = false by rfl)]
      | cons x tl =>
        have hfx : jfuel x ≤ f' := by simp [jfuel] at hf; omega
        have hft : afuel tl ≤ f' := by simp [jfuel] at hf; omega
        simp only [strJson, openTok, jsonParsers, List.append_assoc,
          List.cons_append, List.nil_append]
        rw [skipWs_append_ws hw, skipWs_cons_not_ws (by rfl)]
        have h1 := parseVal_str x f' gap (indent ++ gap) (gapWs gap indent)
          (strArrRest gap indent tl ++ (closeTok 93 gap indent ++ rest)) hfx hg
          (wsOnly_append hi hg) (wsOnly_gapWs hg hi)
        have h2 := parseArr_str tl f' gap indent rest hft hg hi
        simp only [List.append_assoc] at h1 h2
        simp only [skipWs_append_ws (wsOnly_gapWs hg hi), skipWs_strJson_append,
          strJson_append_head_ne_93, if_false, h1, h2, Option.bind_eq_bind, Option.some_bind]
    | obj fs =>
      cases fs with
      | nil =>
        simp only [strJson, jsonParsers, List.append_assoc, List.cons_append,
          List.nil_append]
        rw [skipWs_append_ws hw, skipWs_cons_not_ws (by rfl)]
        simp [skipWs_cons_not_ws (show isWsUnit 125 = false by rfl)]
      | cons k v tl =>
        have hfv : jfuel v ≤ f' := by simp [jfuel] at hf; omega
        have hft : ofuel tl ≤ f' := by simp [jfuel] at hf; omega
        simp only [strJson, openTok, quoteStr, colonTok, jsonParsers,
          List.append_assoc, List.cons_append, List.nil_append]
        rw [skipWs_append_ws hw, skipWs_cons_not_ws (by rfl)]
        have h1 := parseVal_str v f' gap (indent ++ gap)
          (if gap.isEmpty then [] else [32])
          (strObjRest gap indent tl ++ (closeTok 125 gap indent ++ rest)) hfv hg
          (wsOnly_append hi hg) (wsOnly_colonWs gap)
        have h2 := parseObj_str tl f' gap indent rest hft hg hi
        simp only [List.append_assoc] at h1 h2
        simp only [skipWs_append_ws (wsOnly_gapWs hg hi),
          skipWs_cons_not_ws (show isWsUnit 34 = false by rfl),
          skipWs_cons_not_ws (show isWsUnit 58 = false by rfl),
          parseStrBody_escTail, List.head?_cons, h1, h2, Option.bind_eq_bind,
          Option.some_bind]
        simp
termination_by sizeOf j

theorem parseArr_str (xs : JsonArr) (f : Nat) (gap indent rest : List Nat)
    (hf : afuel xs ≤ f) (hg : wsOnly gap = true) (hi : wsOnly indent = true) :
    (jsonParsers f).arrRest
      (strArrRest gap indent xs ++ closeTok 93 gap indent ++ rest) = some (xs, rest) := by
  cases f with
  | zero => exact absurd hf (by have := afuel_pos xs; omega)
  | succ f' =>
    cases xs with
    | nil =>
      simp only [strArrRest, closeTok, jsonParsers, List.append_assoc,
        List.cons_append, List.nil_append]
      rw [skipWs_append_ws (wsOnly_closeWs hi), skipWs_cons_not_ws (by rfl)]
    | cons x tl =>
      have hfx : jfuel x ≤ f' := by simp [afuel] at hf; omega
      have hft : afuel tl ≤ f' := by simp [afuel] at hf; omega
      simp only [strArrRest, sepTok, jsonParsers, List.append_assoc,
        List.cons_append, List.nil_append]
      rw [skipWs_cons_not_ws (by rfl)]
      have h1 := parseVal_str x f' gap (indent ++ gap) (gapWs gap indent)
        (strArrRest gap indent tl ++ (closeTok 93 gap indent ++ rest)) hfx hg
        (wsOnly_append hi hg) (wsOnly_gapWs hg hi)
      have h2 := parseArr_str tl f' gap indent rest hft hg hi
      simp only [List.append_assoc] at h1 h2
      simp only [h1, h2, Option.bind_eq_bind, Option.some_bind]
termination_by sizeOf xs

theorem parseObj_str (fs : JsonObj) (f : Nat) (gap indent rest : List Nat)
    (hf : ofuel fs ≤ f) (hg : wsOnly gap = true) (hi : wsOnly indent = true) :
    (jsonParsers f).objRest
      (strObjRest gap indent fs ++ closeTok 125 gap indent ++ rest) = some (fs, rest) := by
  cases f with
  | zero => exact absurd hf (by have := ofuel_pos fs; omega)
  | succ f' =>
    cases fs with
    | nil =>
      simp only [strObjRest, closeTok, jsonParsers, List.append_assoc,
        List.cons_append, List.nil_append]
      rw [skipWs_append_ws (wsOnly_closeWs hi), skipWs_cons_not_ws (by rfl)]
    | cons k v tl =>
      have hfv : jfuel v ≤ f' := by simp [ofuel] at hf; omega
      have hft : ofuel tl ≤ f' := by simp [ofuel] at hf; omega
      simp only [strObjRest, sepTok, quoteStr, colonTok, jsonParsers,
        List.append_assoc, List.cons_append, List.nil_append]
      rw [skipWs_cons_not_ws (by rfl)]
      have h1 := parseVal_str v f' gap (indent ++ gap)
        (if gap.isEmpty then [] else [32])
        (strObjRest gap indent tl ++ (closeTok 125 gap indent ++ rest)) hfv hg
        (wsOnly_append hi hg) (wsOnly_colonWs gap)
      have h2 := parseObj_str tl f' gap indent rest hft hg hi
      simp only [List.append_assoc] at h1 h2
      simp only [skipWs_append_ws (wsOnly_gapWs hg hi),
        skipWs_cons_not_ws (show isWsUnit 34 = false by rfl),
        skipWs_cons_not_ws (show isWsUnit 58 = false by rfl),
        parseStrBody_escTail, List.head?_cons, h1, h2, Option.bind_eq_bind,
        Option.some_bind]
termination_by sizeOf fs
end

mutual
theorem jfuel_le_len (gap indent : JStr) (j : Json) :
    jfuel j ≤ (strJson gap indent j).length + 1 := by
  cases j with
  | null => simp [jfuel, strJson]
  | bool b => cases b <;> simp [jfuel, strJson]
  | str s => simp [jfuel]
  | arr xs =>
    cases xs with
    | nil => simp [jfuel, strJson]
    | cons x tl =>
      have ih1 := jfuel_le_len gap (indent ++ gap) x
      have ih2 := afuel_le_len gap indent tl
      have hc : 1 ≤ (closeTok 93 gap indent).length := by simp [closeTok]
      simp only [jfuel, strJson, openTok, List.length_append, List.length_cons]
      omega
  | obj fs =>
    cases fs with
    | nil => simp [jfuel, strJson]
    | cons k v tl =>
      have ih1 := jfuel_le_len gap (indent ++ gap) v
      have ih2 := ofuel_le_len gap indent tl
      have hc : 1 ≤ (closeTok 125 gap indent).length := by simp [closeTok]
      simp only [jfuel, strJson, openTok, List.length_append, List.length_cons]
      omega
termination_by sizeOf j

theorem afuel_le_len (gap indent : JStr) (xs : JsonArr) :
    afuel xs ≤ (strArrRest gap indent xs).length + 1 := by
  cases xs with
  | nil => simp [afuel, strArrRest]
  | cons x tl =>
    have ih1 := jfuel_le_len gap (indent ++ gap) x
    have ih2 := afuel_le_len gap indent tl
    simp only [afuel, strArrRest, sepTok, List.length_append, List.length_cons]
    omega
termination_by sizeOf xs

theorem ofuel_le_len (gap indent : JStr) (fs : JsonObj) :
    ofuel fs ≤ (strObjRest gap indent fs).length + 1 := by
  cases fs with
  | nil => simp [ofuel, strObjRest]
  | cons k v tl =>
    have ih1 := jfuel_le_len gap (indent ++ gap) v
    have ih2 := ofuel_le_len gap indent tl
    simp only [ofuel, strObjRest, sepTok, List.length_append, List.length_cons]
    omega
termination_by sizeOf fs
end

/-- `JSON.parse ∘ JSON.stringify = id` on the modelled JSON values, for any
whitespace gap (in particular the compact and the 2-space pretty forms). -/
theorem jsonParse_strJson (gap : JStr) (hg : wsOnly gap = true) (j : Json) :
    jsonParse (strJson gap [] j) = some j := by
  have hb := jfuel_le_len gap [] j
  have h := parseVal_str j ((strJson gap [] j).length + 1) gap [] [] []
    (by omega) hg rfl rfl
  rw [List.nil_append, List.append_nil] at h
  rw [jsonParse, h]
  rfl

/-! ### Character card codec (`src/core/character/parser.ts`) -/

/-- `CharacterData` as declared in `types/index.ts`: six required string
fields plus optional fields.  `extensions` is carried as an opaque JSON
value (the source only passes it through). -/
structure CharacterData where
  name : JStr
  description : JStr
  personality : JStr
  scenario : JStr
  first_mes : JStr
  mes_example : JStr
  creator_notes : Option JStr := none
  system_prompt : Option JStr := none
  post_history_instructions : Option JStr := none
  alternate_greetings : Option (List JStr) := none
  tags : Option (List JStr) := none
  creator : Option JStr := none
  character_version : Option JStr := none
  extensions : Option Json := none

/-- A stored `Character`: `CharacterData` plus identity metadata.  The
TypeScript interface is flat (`Character extends CharacterData`); the model
nests the data part so that "the data fields" of a character is a single
projection. -/
structure Character where
  data : CharacterData
  id : JStr
  avatar : Option JStr := none
  createdAt : Int := 0
  updatedAt : Int := 0
  isFavorite : Bool := false
  chatCount : Int := 0

/-- `createCharacterFromData` (parser.ts): wraps the data with fresh
identity metadata; `generateId()` and `Date.now()` are passed in
explicitly. -/
def createCharacterFromData (d : CharacterData) (avatar : Option JStr)
    (idv : JStr) (now : Int) : Character :=
  { data := d, id := idv, avatar := avatar, createdAt := now, updatedAt := now,
    isFavorite := false, chatCount := 0 }

/-- Build a JSON object from a field list whose values may be `undefined`
(`none`).  JavaScript object literals keep `undefined`-valued keys, but
`JSON.stringify` drops them and no codec path distinguishes a dropped key
from an absent one, so the model omits them. -/
def objOfFields : List (String × Option Json) → JsonObj
  | [] => .nil
  | (k, some v) :: t => .cons (jstr k) v (objOfFields t)
  | (_, none) :: t => objOfFields t

def JsonArr.ofList : List Json → JsonArr
  | [] => .nil
  | x :: t => .cons x (JsonArr.ofList t)

/-- The `data` object of the V2 card produced by `exportToV2Card`
(`JSON.stringify` view): required fields always present, optional fields
present when defined, in the declaration order of the `Character` record. -/
def dataToJson (d : CharacterData) : Json :=
  .obj (objOfFields
    [("name", some (.str d.name)),
     ("description", some (.str d.description)),
     ("personality", some (.str d.personality)),
     ("scenario", some (.str d.scenario)),
     ("first_mes", some (.str d.first_mes)),
     ("mes_example", some (.str d.mes_example)),
     ("creator_notes", d.creator_notes.map .str),
     ("system_prompt", d.system_prompt.map .str),
     ("post_history_instructions", d.post_history_instructions.map .str),
     ("alternate_greetings",
       d.alternate_greetings.map (fun l => .arr (JsonArr.ofList (l.map .str)))),
     ("tags", d.tags.map (fun l => .arr (JsonArr.ofList (l.map .str)))),
     ("creator", d.creator.map .str),
     ("character_version", d.character_version.map .str),
     ("extensions", d.extensions)])

/-- Wrap a `data` object as a generation-2 card (the object literal built
by `exportToV2Card`, `convertV1ToV2` and the parser fallbacks alike). -/
def mkV2Card (dataObj : Json) : Json :=
  .obj (objOfFields
    [("spec", some (.str (jstr "chara_card_v2"))),
     ("spec_version", some (.str (jstr "2.0"))),
     ("data", some dataObj)])

/-- `exportToV2Card` (parser.ts): destructures the identity fields
(`id, avatar, createdAt, updatedAt, isFavorite, chatCount`) away and wraps
the rest as a generation-2 card. -/
def exportToV2Card (c : Character) : Json := mkV2Card (dataToJson c.data)

/-- `exportCharacterToJson` (parser.ts): `JSON.stringify(card, null, 2)`
when pretty, `JSON.stringify(card)` otherwise. -/
def exportCharacterToJson (c : Character) (pretty : Bool) : List Nat :=
  strJson (if pretty then jstr "  " else []) [] (exportToV2Card c)

/-- `typeof x === 'object'` on a parsed JSON value (`null` included, as in
JavaScript). -/
def jsTypeofObject : Json → Bool
  | .obj _ => true
  | .arr _ => true
  | .null => true
  | _ => false

/-- `typeof x === 'object' && x !== null`. -/
def jsIsObjectType : Json → Bool
  | .obj _ => true
  | .arr _ => true
  | _ => false

/-- `isV2Card` (parser.ts). -/
def isV2Card (j : Json) : Bool :=
  jsIsObjectType j && j.hasField (jstr "spec") &&
    (match j.get? (jstr "spec") with
     | some (.str s) => s = jstr "chara_card_v2"
     | _ => false)

/-- `isV1Card` (parser.ts). -/
def isV1Card (j : Json) : Bool :=
  jsIsObjectType j && j.hasField (jstr "name") &&
    j.hasField (jstr "description") && j.hasField (jstr "first_mes") &&
    !(j.hasField (jstr "spec"))

/-- `convertV1ToV2` (parser.ts): the six required fields are carried over
with `|| ''` defaults and no further coercion. -/
def convertV1ToV2 (j : Json) : Json :=
  mkV2Card (.obj (objOfFields
    [("name", some (jsOr (j.getD (jstr "name")) (.str []))),
     ("description", some (jsOr (j.getD (jstr "description")) (.str []))),
     ("personality", some (jsOr (j.getD (jstr "personality")) (.str []))),
     ("scenario", some (jsOr (j.getD (jstr "scenario")) (.str []))),
     ("first_mes", some (jsOr (j.getD (jstr "first_mes")) (.str []))),
     ("mes_example", some (jsOr (j.getD (jstr "mes_example")) (.str [])))]))

/-- Elementwise `String(...)` coercion of `Array.prototype.map(String)`. -/
def JsonArr.mapToStr : JsonArr → JsonArr
  | .nil => .nil
  | .cons x tl => .cons (.str x.jsToString) (JsonArr.mapToStr tl)

/-- `extractCharacterData` (parser.ts): required fields via
`String(... || ...)`, optional string fields via truthiness-conditional
`String(...)`, array fields via `Array.isArray ? map(String) : undefined`,
`extensions` passed through as-is. -/
def extractCharacterData (j : Json) : Json :=
  .obj (objOfFields
    [("name", some (.str (jsOr (j.getD (jstr "name")) (.str [])).jsToString)),
     ("description",
       some (.str (jsOr (j.getD (jstr "description")) (.str [])).jsToString)),
     ("personality",
       some (.str (jsOr (j.getD (jstr "personality")) (.str [])).jsToString)),
     ("scenario",
       some (.str (jsOr (j.getD (jstr "scenario")) (.str [])).jsToString)),
     ("first_mes",
       some (.str (jsOr (j.getD (jstr "first_mes"))
         (jsOr (j.getD (jstr "first_message")) (.str []))).jsToString)),
     ("mes_example",
       some (.str (jsOr (j.getD (jstr "mes_example"))
         (jsOr (j.getD (jstr "example_dialogue")) (.str []))).jsToString)),
     ("creator_notes",
       if (j.getD (jstr "creator_notes")).truthy then
         some (.str (j.getD (jstr "creator_notes")).jsToString)
       else none),
     ("system_prompt",
       if (j.getD (jstr "system_prompt")).truthy then
         some (.str (j.getD (jstr "system_prompt")).jsToString)
       else none),
     ("post_history_instructions",
       if (j.getD (jstr "post_history_instructions")).truthy then
         some (.str (j.getD (jstr "post_history_instructions")).jsToString)
       else none),
     ("alternate_greetings",
       match j.get? (jstr "alternate_greetings") with
       | some (.arr xs) => some (.arr xs.mapToStr)
       | _ => none),
     ("tags",
       match j.get? (jstr "tags") with
       | some (.arr xs) => some (.arr xs.mapToStr)
       | _ => none),
     ("creator",
       if (j.getD (jstr "creator")).truthy then
         some (.str (j.getD (jstr "creator")).jsToString)
       else none),
     ("character_version",
       if (j.getD (jstr "character_version")).truthy then
         some (.str (j.getD (jstr "character_version")).jsToString)
       else none),
     ("extensions", j.get? (jstr "extensions"))])

/-- `validateV2Card` (parser.ts): requires a truthy `data` with a truthy
`name`, then rebuilds the card with `|| ''` defaults on the other required
fields and passes the optional fields through. -/
def validateV2Card (j : Json) : Except JStr Json :=
  let data := j.getD (jstr "data")
  if !data.truthy then .error (jstr "V2 card missing data field")
  else if !(data.getD (jstr "name")).truthy then
    .error (jstr "Character name is required")
  else
    .ok (mkV2Card (.obj (objOfFields
      [("name", some (data.getD (jstr "name"))),
       ("description", some (jsOr (data.getD (jstr "description")) (.str []))),
       ("personality", some (jsOr (data.getD (jstr "personality")) (.str []))),
       ("scenario", some (jsOr (data.getD (jstr "scenario")) (.str []))),
       ("first_mes", some (jsOr (data.getD (jstr "first_mes")) (.str []))),
       ("mes_example", some (jsOr (data.getD (jstr "mes_example")) (.str []))),
       ("creator_notes", data.get? (jstr "creator_notes")),
       ("system_prompt", data.get? (jstr "system_prompt")),
       ("post_history_instructions", data.get? (jstr "post_history_instructions")),
       ("alternate_greetings", data.get? (jstr "alternate_greetings")),
       ("tags", data.get? (jstr "tags")),
       ("creator", data.get? (jstr "creator")),
       ("character_version", data.get? (jstr "character_version")),
       ("extensions", data.get? (jstr "extensions"))])))

/-- The root-object fallback at the end of `parseCharacterCard`. -/
def parseRootFallback (j : Json) : Except JStr Json :=
  if j.hasField (jstr "name") then .ok (mkV2Card (extractCharacterData j))
  else .error (jstr "Invalid character card format")

def Json.isNull : Json → Bool
  | .null => true
  | _ => false

/-- `parseCharacterCard` (parser.ts), after the initial `JSON.parse`.
`typeof data.data === 'object'` is also true of `null`, so the nested
branch is entered for `data: null` and evaluating `'name' in null` then
throws a `TypeError` — modelled, like the explicit `throw`, as an error
value carrying the V8 message. -/
def parseCharacterCard (j : Json) : Except JStr Json :=
  if isV2Card j then validateV2Card j
  else if isV1Card j then .ok (convertV1ToV2 j)
  else if jsIsObjectType j then
    match j.get? (jstr "data") with
    | some d =>
      if jsTypeofObject d then
        if d.isNull then
          .error
            (jstr "Cannot use 'in' operator to search for 'name' in null")
        else if d.hasField (jstr "name") then
          .ok (mkV2Card (extractCharacterData d))
        else parseRootFallback j
      else parseRootFallback j
    | none => parseRootFallback j
  else .error (jstr "Invalid character card format")

/-- `parseCharacterCard` applied to JSON text (the exported form): the
platform `JSON.parse` runs first and a non-JSON input is a `FormatError`. -/
def parseCharacterCardText (s : List Nat) : Except JStr Json :=
  match jsonParse s with
  | some j => parseCharacterCard j
  | none => .error (jstr "Unexpected token in JSON")

theorem JsonObj.get?_cons_ne {k key : JStr} (h : ¬ k = key) (v : Json)
    (tl : JsonObj) :
    JsonObj.get? (.cons k v tl) key = JsonObj.get? tl key := by
  cases htl : JsonObj.get? tl key <;> simp [JsonObj.get?, htl, h]

theorem get?_objOfFields_nil (key : JStr) :
    JsonObj.get? (objOfFields []) key = none := rfl

theorem get?_objOfFields_ne {k : String} {key : JStr} (h : ¬ jstr k = key)
    (v : Option Json) (t : List (String × Option Json)) :
    JsonObj.get? (objOfFields ((k, v) :: t)) key =
      JsonObj.get? (objOfFields t) key := by
  cases v with
  | none => rfl
  | some j => exact JsonObj.get?_cons_ne h j _

theorem get?_objOfFields_self {k : String} {v : Option Json}
    {t : List (String × Option Json)}
    (h : JsonObj.get? (objOfFields t) (jstr k) = none) :
    JsonObj.get? (objOfFields ((k, v) :: t)) (jstr k) = v := by
  cases v with
  | none => simpa [objOfFields] using h
  | some j => simp [objOfFields, JsonObj.get?, h]

/-- `x || ''` on a string value is the string itself. -/
theorem jsOr_str_empty (s : JStr) : jsOr (.str s) (.str []) = .str s := by
  by_cases h : s = []
  · subst h
    rfl
  · simp [jsOr, Json.truthy, h]

theorem Json.getD_of_get? {j : Json} {key : JStr} {v : Json}
    (h : j.get? key = some v) : j.getD key = v := by
  simp [Json.getD, h]

theorem exportToV2Card_get_spec (c : Character) :
    (exportToV2Card c).get? (jstr "spec") = some (.str (jstr "chara_card_v2")) := by
  simp +decide [exportToV2Card, mkV2Card, Json.get?, get?_objOfFields_ne,
    get?_objOfFields_self, get?_objOfFields_nil]

theorem exportToV2Card_get_data (c : Character) :
    (exportToV2Card c).get? (jstr "data") = some (dataToJson c.data) := by
  simp +decide [exportToV2Card, mkV2Card, Json.get?, get?_objOfFields_ne,
    get?_objOfFields_self, get?_objOfFields_nil]

theorem isV2Card_export (c : Character) : isV2Card (exportToV2Card c) = true := by
  simp +decide [isV2Card, jsIsObjectType, Json.hasField, exportToV2Card, mkV2Card,
    Json.get?, get?_objOfFields_ne, get?_objOfFields_self, get?_objOfFields_nil]

/-- The card `validateV2Card` rebuilds from an exported character: the same
data fields, with the `|| ''` defaults collapsed away. -/
def exportValidated (d : CharacterData) : Json :=
  mkV2Card (.obj (objOfFields
    [("name", some (.str d.name)),
     ("description", some (.str d.description)),
     ("personality", some (.str d.personality)),
     ("scenario", some (.str d.scenario)),
     ("first_mes", some (.str d.first_mes)),
     ("mes_example", some (.str d.mes_example)),
     ("creator_notes", d.creator_notes.map .str),
     ("system_prompt", d.system_prompt.map .str),
     ("post_history_instructions", d.post_history_instructions.map .str),
     ("alternate_greetings",
       d.alternate_greetings.map (fun l => .arr (JsonArr.ofList (l.map .str)))),
     ("tags", d.tags.map (fun l => .arr (JsonArr.ofList (l.map .str)))),
     ("creator", d.creator.map .str),
     ("character_version", d.character_version.map .str),
     ("extensions", d.extensions)]))

theorem validateV2Card_export (c : Character) (hname : c.data.name ≠ []) :
    validateV2Card (exportToV2Card c) = .ok (exportValidated c.data) := by
  rw [validateV2Card, Json.getD_of_get? (exportToV2Card_get_data c)]
  simp +decide [dataToJson, exportValidated, Json.getD, Json.get?, Json.truthy,
    get?_objOfFields_ne, get?_objOfFields_self, get?_objOfFields_nil,
    jsOr_str_empty, hname]

theorem parseCharacterCard_export (c : Character) (hname : c.data.name ≠ []) :
    parseCharacterCard (exportToV2Card c) = .ok (exportValidated c.data) := by
  rw [parseCharacterCard, if_pos (isV2Card_export c),
    validateV2Card_export c hname]

/-- The generation-2 card `card` carries exactly the data fields of `d`
(spec tag, spec version, the six required strings, and every optional field
with presence preserved). -/
def cardMatchesData (card : Json) (d : CharacterData) : Prop :=
  card.get? (jstr "spec") = some (.str (jstr "chara_card_v2")) ∧
  card.get? (jstr "spec_version") = some (.str (jstr "2.0")) ∧
  (card.getD (jstr "data")).get? (jstr "name") = some (.str d.name) ∧
  (card.getD (jstr "data")).get? (jstr "description") = some (.str d.description) ∧
  (card.getD (jstr "data")).get? (jstr "personality") = some (.str d.personality) ∧
  (card.getD (jstr "data")).get? (jstr "scenario") = some (.str d.scenario) ∧
  (card.getD (jstr "data")).get? (jstr "first_mes") = some (.str d.first_mes) ∧
  (card.getD (jstr "data")).get? (jstr "mes_example") = some (.str d.mes_example) ∧
  (card.getD (jstr "data")).get? (jstr "creator_notes") = d.creator_notes.map .str ∧
  (card.getD (jstr "data")).get? (jstr "system_prompt") = d.system_prompt.map .str ∧
  (card.getD (jstr "data")).get? (jstr "post_history_instructions") =
    d.post_history_instructions.map .str ∧
  (card.getD (jstr "data")).get? (jstr "alternate_greetings") =
    d.alternate_greetings.map (fun l => .arr (JsonArr.ofList (l.map .str))) ∧
  (card.getD (jstr "data")).get? (jstr "tags") =
    d.tags.map (fun l => .arr (JsonArr.ofList (l.map .str))) ∧
  (card.getD (jstr "data")).get? (jstr "creator") = d.creator.map .str ∧
  (card.getD (jstr "data")).get? (jstr "character_version") =
    d.character_version.map .str ∧
  (card.getD (jstr "data")).get? (jstr "extensions") = d.extensions

theorem exportValidated_matches (d : CharacterData) :
    cardMatchesData (exportValidated d) d := by
  simp +decide [cardMatchesData, exportValidated, mkV2Card, Json.getD, Json.get?,
    get?_objOfFields_ne, get?_objOfFields_self, get?_objOfFields_nil]

/-- C2: for every valid character `c` (all six required string fields
present, `name` non-empty), parsing the serialized JSON form —
`parseCharacterCard(exportCharacterToJson(c))`, whether pretty-printed or
compact — yields a generation-2 card whose data fields equal `c`'s data
fields (identity metadata such as id and timestamps excluded). -/
theorem C2_parse_serialize_roundtrip (c : Character) (pretty : Bool)
    (hname : c.data.name ≠ []) :
    ∃ card, parseCharacterCardText (exportCharacterToJson c pretty) = .ok card ∧
      cardMatchesData card c.data := by
  refine ⟨exportValidated c.data, ?_, exportValidated_matches c.data⟩
  have hws : wsOnly (if pretty then jstr "  " else []) = true := by
    cases pretty <;> decide
  rw [exportCharacterToJson, parseCharacterCardText,
    jsonParse_strJson _ hws (exportToV2Card c)]
  exact parseCharacterCard_export c hname

/-- A concrete character used to instantiate the round-trip theorems. -/
def evaData : CharacterData :=
  { name := jstr "Eva", description := jstr "d", personality := jstr "p",
    scenario := jstr "s", first_mes := jstr "hi", mes_example := [] }

def evaChar : Character := createCharacterFromData evaData none (jstr "id-1") 7

theorem C2_parse_serialize_roundtrip_witness :
    evaChar.data.name ≠ [] ∧
    (∃ card,
      parseCharacterCardText (exportCharacterToJson evaChar true) = .ok card ∧
        cardMatchesData card evaChar.data) :=
  ⟨by decide, C2_parse_serialize_roundtrip evaChar true (by decide)⟩

/-! ### PNG embedding (`src/core/character/png-embed.ts`)

The functions take the decoded image bytes; the whole-file base64 transport
(`atob` at entry, `btoa` at exit) is the platform's bijection between
base64 text and binary strings and is dropped at the boundary.  The inner
`btoa`/`atob` of the card payload is modelled for real, including `btoa`'s
`InvalidCharacterError` on any code unit above 255. -/

def PNG_SIGNATURE : List Nat := [137, 80, 78, 71, 13, 10, 26, 10]

/-- Alphabet character of a 6-bit group. -/
def b64char (n : Nat) : Nat :=
  if n < 26 then 65 + n
  else if n < 52 then 97 + (n - 26)
  else if n < 62 then 48 + (n - 52)
  else if n = 62 then 43
  else 47

/-- RFC 4648 base64 of a byte list, with `=` padding. -/
def base64Encode : List Nat → List Nat
  | [] => []
  | [a] => [b64char (a / 4), b64char (a % 4 * 16), 61, 61]
  | [a, b] => [b64char (a / 4), b64char (a % 4 * 16 + b / 16),
      b64char (b % 16 * 4), 61]
  | a :: b :: c :: t => b64char (a / 4) :: b64char (a % 4 * 16 + b / 16) ::
      b64char (b % 16 * 4 + c / 64) :: b64char (c % 64) :: base64Encode t

/-- Value of a base64 alphabet character. -/
def b64val? (c : Nat) : Option Nat :=
  if 65 ≤ c ∧ c ≤ 90 then some (c - 65)
  else if 97 ≤ c ∧ c ≤ 122 then some (c - 97 + 26)
  else if 48 ≤ c ∧ c ≤ 57 then some (c - 48 + 52)
  else if c = 43 then some 62
  else if c = 47 then some 63
  else none

/-- Base64 decoding (the platform `atob`): `none` on ill-formed input. -/
def base64Decode : List Nat → Option (List Nat)
  | [] => some []
  | [a, b, 61, 61] => do
    let va ← b64val? a
    let vb ← b64val? b
    if vb % 16 = 0 then some [va * 4 + vb / 16] else none
  | [a, b, c, 61] => do
    let va ← b64val? a
    let vb ← b64val? b
    let vc ← b64val? c
    if vc % 4 = 0 then some [va * 4 + vb / 16, vb % 16 * 16 + vc / 4] else none
  | a :: b :: c :: d :: t => do
    let va ← b64val? a
    let vb ← b64val? b
    let vc ← b64val? c
    let vd ← b64val? d
    let rest ← base64Decode t
    some ((va * 4 + vb / 16) :: (vb % 16 * 16 + vc / 4) ::
      (vc % 4 * 64 + vd) :: rest)
  | _ => none

/-- The Web API `btoa`: throws `InvalidCharacterError` (here `none`) if any
code unit of its argument exceeds 255, else base64 of the code units. -/
def btoa (units : List Nat) : Option (List Nat) :=
  if units.all (· < 256) then some (base64Encode units) else none

/-- One `>>> 1`-with-polynomial step of the CRC32 table computation. -/
def crcStep (c : Nat) : Nat :=
  if c % 2 = 1 then Nat.xor 3988292384 (c / 2) else c / 2

/-- `crcTable[n]`: eight polynomial steps. -/
def crcTableEntry (n : Nat) : Nat :=
  crcStep (crcStep (crcStep (crcStep (crcStep (crcStep (crcStep (crcStep n)))))))

/-- `calculateCRC32` (png-embed.ts): the reflected 0xEDB88320 CRC over the
bytes, with the usual pre/post inversion. -/
def calculateCRC32 (data : List Nat) : Nat :=
  Nat.xor
    (data.foldl (fun crc b => Nat.xor (crcTableEntry ((Nat.xor crc b) % 256)) (crc / 256))
      4294967295)
    4294967295

/-- Big-endian 4-byte encoding (`(n >> 24) & 0xff`, ...). -/
def be32 (n : Nat) : List Nat :=
  [n / 16777216 % 256, n / 65536 % 256, n / 256 % 256, n % 256]

/-- `createTextChunk` (png-embed.ts): length, `tEXt`, keyword, NUL, text,
CRC32 over type + data. -/
def createTextChunk (keyword text : List Nat) : List Nat :=
  let dataPart := keyword ++ [0] ++ text
  be32 dataPart.length ++ jstr "tEXt" ++ dataPart ++
    be32 (calculateCRC32 (jstr "tEXt" ++ dataPart))

/-- The 32-bit big-endian length field read at `offset`
(`(b[o] << 24) | ... | b[o+3]`; for any well-formed chunk the first byte is
below 128, where the JavaScript signed shift agrees with the plain value).
Out-of-range reads yield 0. -/
def readBE32 (bytes : List Nat) (offset : Nat) : Nat :=
  bytes.getD offset 0 * 16777216 + bytes.getD (offset + 1) 0 * 65536 +
    bytes.getD (offset + 2) 0 * 256 + bytes.getD (offset + 3) 0

/-- The 4 chunk-type bytes at `offset` (`String.fromCharCode` of them). -/
def typeAt (bytes : List Nat) (offset : Nat) : List Nat :=
  [bytes.getD offset 0, bytes.getD (offset + 1) 0, bytes.getD (offset + 2) 0,
    bytes.getD (offset + 3) 0]

/-- Index of the first NUL in a chunk's data (`nullIndex` loop). -/
def findNull (chunkData : List Nat) : Nat :=
  (chunkData.takeWhile (fun u => !(u == 0))).length

/-- The chunk walk of `extractCharacterFromPng`: at each chunk read length
and type; on a `tEXt` chunk whose keyword is `chara`, decode the payload
(`atob`, `JSON.parse`, `parseCharacterCard`, any failure caught to `null`);
otherwise skip `length + 4` bytes and stop after `IEND`.  Each iteration
advances the cursor by at least 12, so `bytes.length + 1` fuel is never
exhausted on a terminating run. -/
def extractLoop (bytes : List Nat) : Nat → Nat → Option Json
  | 0, _ => none
  | fuel + 1, offset =>
    if offset < bytes.length then
      let length := readBE32 bytes offset
      let type := typeAt bytes (offset + 4)
      if type = jstr "tEXt" ∧
          (let chunkData := (bytes.drop (offset + 8)).take length
           chunkData.take (findNull chunkData) = jstr "chara") then
        let chunkData := (bytes.drop (offset + 8)).take length
        let textBytes := chunkData.drop (findNull chunkData + 1)
        match base64Decode textBytes with
        | some jsonBytes =>
          match jsonParse jsonBytes with
          | some j => (parseCharacterCard j).toOption
          | none => none
        | none => none
      else if type = jstr "IEND" then none
      else extractLoop bytes fuel (offset + 12 + length)
    else none

/-- `extractCharacterFromPng` (png-embed.ts), on decoded bytes. -/
def extractCharacterFromPng (bytes : List Nat) : Option Json :=
  if PNG_SIGNATURE.isPrefixOf bytes then
    extractLoop bytes (bytes.length + 1) 8
  else none

/-- The walk of `removeExistingCharaChunk`: copy every chunk except `tEXt`
chunks keyed `chara`, stopping after copying `IEND`. -/
def removeLoop (bytes : List Nat) : Nat → Nat → List Nat
  | 0, _ => []
  | fuel + 1, offset =>
    if offset < bytes.length then
      let length := readBE32 bytes offset
      let type := typeAt bytes (offset + 4)
      let chunk := (bytes.drop offset).take (12 + length)
      let keep : Bool :=
        if type = jstr "tEXt" then
          let chunkData := (bytes.drop (offset + 8)).take length
          !(chunkData.take (findNull chunkData) == jstr "chara")
        else true
      (if keep then chunk else []) ++
        (if type = jstr "IEND" then [] else removeLoop bytes fuel (offset + 12 + length))
    else []

/-- `removeExistingCharaChunk` (png-embed.ts). -/
def removeExistingCharaChunk (bytes : List Nat) : List Nat :=
  bytes.take 8 ++ removeLoop bytes (bytes.length + 1) 8

/-- The insert-position walk of `embedCharacterIntoPng`: the offset of the
`IEND` chunk, or the end of the image when none is found. -/
def findIendOffset (bytes : List Nat) : Nat → Nat → Nat
  | 0, _ => bytes.length
  | fuel + 1, offset =>
    if offset < bytes.length then
      let length := readBE32 bytes offset
      let type := typeAt bytes (offset + 4)
      if type = jstr "IEND" then offset
      else findIendOffset bytes fuel (offset + 12 + length)
    else bytes.length

/-- `embedCharacterIntoPng` (png-embed.ts), on decoded bytes: validate the
signature, serialize and `btoa` the card (failing for non-Latin-1 data),
remove any existing `chara` chunk, and splice the new `tEXt` chunk at the
`IEND` offset.  The source's first insert-position scan over the uncleaned
bytes is dead (its result is recomputed after cleaning) and is omitted.
`none` models a thrown error. -/
def embedCharacterIntoPng (bytes : List Nat) (c : Character) : Option (List Nat) :=
  if PNG_SIGNATURE.isPrefixOf bytes then
    let jsonString := strJson [] [] (exportToV2Card c)
    match btoa jsonString with
    | some base64Json =>
      let textChunk := createTextChunk (jstr "chara") base64Json
      let cleanedBytes := removeExistingCharaChunk bytes
      let insertPosition := findIendOffset cleanedBytes (cleanedBytes.length + 1) 8
      some (cleanedBytes.take insertPosition ++ textChunk ++
        cleanedBytes.drop insertPosition)
    | none => none
  else none

/-- Number of embedded-character chunks (`tEXt` keyed `chara`) a chunk walk
visits before `IEND`. -/
def countCharaLoop (bytes : List Nat) : Nat → Nat → Nat
  | 0, _ => 0
  | fuel + 1, offset =>
    if offset < bytes.length then
      let length := readBE32 bytes offset
      let type := typeAt bytes (offset + 4)
      let isChara : Bool :=
        if type = jstr "tEXt" then
          let chunkData := (bytes.drop (offset + 8)).take length
          chunkData.take (findNull chunkData) == jstr "chara"
        else false
      (if isChara then 1 else 0) +
        (if type = jstr "IEND" then 0 else countCharaLoop bytes fuel (offset + 12 + length))
    else 0

def countCharaChunks (bytes : List Nat) : Nat :=
  countCharaLoop bytes (bytes.length + 1) 8

/-- A minimal well-formed base PNG: signature, an empty `IHDR`-typed chunk,
and `IEND`. -/
def minimalPng : List Nat :=
  PNG_SIGNATURE ++ (be32 0 ++ jstr "IHDR" ++ [1, 2, 3, 4]) ++
    (be32 0 ++ jstr "IEND" ++ [5, 6, 7, 8])

/-- Valid character data whose name is the single code unit U+0100 — one
code unit above the Latin-1 range `btoa` accepts. -/
def uniData : CharacterData :=
  { name := [256], description := [], personality := [], scenario := [],
    first_mes := [], mes_example := [] }

def uniChar : Character := createCharacterFromData uniData none (jstr "id-2") 0

/-- C1: the claimed PNG round-trip
`extractCharacterFromPng (embedCharacterIntoPng png (create d))` fails for
valid character data that is not Latin-1-representable: the source hands
`JSON.stringify(card)` straight to `btoa`, which throws
`InvalidCharacterError` on any code unit above 255, so embedding a
character whose name is "Ā" (U+0100) — name non-empty, hence valid — throws
instead of producing an image.  The claim (and the repository's own PNG
round-trip property test) asserts success for every valid character data. -/
theorem C1_png_embed_fails_on_non_latin1 :
    embedCharacterIntoPng minimalPng uniChar = none := by decide

set_option maxRecDepth 200000 in
/-- Supporting evidence for the C1 analysis: on Latin-1 data the embed →
extract pipeline does round-trip, the freshly embedded image carries
exactly one `chara` `tEXt` chunk, and re-embedding into an image that
already carries one still leaves exactly one, bearing the newest data. -/
theorem png_roundtrip_concrete :
    ∃ out, embedCharacterIntoPng minimalPng evaChar = some out ∧
      extractCharacterFromPng out = some (exportValidated evaData) ∧
      countCharaChunks out = 1 ∧
      ∃ out2, embedCharacterIntoPng out uniChar = none ∧
        embedCharacterIntoPng out
            (createCharacterFromData
              { evaData with name := jstr "Eva2" } none (jstr "id-3") 9) =
          some out2 ∧
        countCharaChunks out2 = 1 ∧
        extractCharacterFromPng out2 =
          some (exportValidated { evaData with name := jstr "Eva2" }) := by
  refine ⟨_, rfl, ?_, ?_, _, ?_, rfl, ?_, ?_⟩
  · rfl
  · decide
  · decide
  · decide
  · rfl

end Codec

namespace Tok

/-! ### Tokenizer (`src/core/tokenizer.ts`)

Strings in this module are Lean `String`s; `text.length` counts characters
where JavaScript counts UTF-16 code units, which agrees on BMP text and is
immaterial to the claims. -/

/-- `estimateTokens`: `Math.ceil(text.length / 4)`. -/
def estimateTokens (text : String) : Nat := (text.length + 3) / 4

/-- `countTokens`: the tokenizer argument only selects the estimator, which
is always the simple estimation. -/
def countTokens (text : String) : Nat := estimateTokens text

inductive Role where
  | user
  | assistant
  | system
deriving DecidableEq

/-- `ChatMessage` (`types/index.ts`), the fields the tokenizer and chat
manager touch. -/
structure ChatMessage where
  id : String
  role : Role
  content : String
  timestamp : Int := 0
  swipes : Option (List String) := none
  swipeIndex : Option Nat := none
  isEdited : Option Bool := none
deriving DecidableEq

structure TruncateResult where
  messages : List ChatMessage
  truncated : Bool
  removedCount : Nat
deriving DecidableEq

/-- The newest-to-oldest greedy loop shared by `truncateMessages` and
`truncateMessagesPreserveSystem`: the input list is newest-first (the
source iterates the array backwards), `total` is the running token count;
a message is included when it fits and skipped (counted removed) when it
does not — the loop does not stop at the first non-fitting message.
Returns the kept messages oldest-first (the source `unshift`s) and the
removed count. -/
def truncateWalk {α : Type} (maxTokens : Int) :
    List (α × Nat) → Int → List α × Nat
  | [], _ => ([], 0)
  | (m, t) :: older, total =>
    if total + t ≤ maxTokens then
      let r := truncateWalk maxTokens older (total + t)
      (r.1 ++ [m], r.2)
    else
      let r := truncateWalk maxTokens older total
      (r.1, r.2 + 1)

/-- `truncateMessages` (tokenizer.ts). -/
def truncateMessages (messages : List ChatMessage) (maxTokens : Int) :
    TruncateResult :=
  if messages.isEmpty then ⟨[], false, 0⟩
  else
    let messageTokens := messages.map (fun m => (m, countTokens m.content + 4))
    let r := truncateWalk maxTokens messageTokens.reverse 3
    ⟨r.1, decide (r.2 > 0), r.2⟩

/-- The `{role, content}` message shape `truncateMessagesPreserveSystem`
operates on. -/
structure SMessage where
  role : String
  content : String
deriving DecidableEq

structure PreserveResult where
  messages : List SMessage
  truncated : Bool
deriving DecidableEq

/-- `truncateMessagesPreserveSystem` (tokenizer.ts). -/
def truncateMessagesPreserveSystem (messages : List SMessage) (maxTokens : Int) :
    PreserveResult :=
  let systemMessages := messages.filter (fun m => m.role == "system")
  let chatMessages := messages.filter (fun m => !(m.role == "system"))
  let systemTokens : Nat :=
    systemMessages.foldl (fun acc m => acc + (countTokens m.content + 4)) 3
  let chatBudget : Int := maxTokens - systemTokens
  if chatBudget ≤ 0 then
    ⟨systemMessages, decide (chatMessages.length > 0)⟩
  else
    let chatTokens := chatMessages.map (fun m => (m, countTokens m.content + 4))
    let kept := (truncateWalk chatBudget chatTokens.reverse 0).1
    ⟨systemMessages ++ kept, decide (kept.length < chatMessages.length)⟩

/-- The claim's total estimated cost of a message list: base overhead plus,
per message, content cost plus per-message overhead (the source's
`countMessagesTokens`). -/
def totalEstimate (messages : List ChatMessage) : Nat :=
  3 + (messages.map (fun m => countTokens m.content + 4)).sum

theorem truncateWalk_removed {α : Type} (max : Int) (l : List (α × Nat)) :
    ∀ total, (truncateWalk max l total).2 =
      l.length - (truncateWalk max l total).1.length ∧
      (truncateWalk max l total).1.length ≤ l.length := by
  induction l with
  | nil => intro total; simp [truncateWalk]
  | cons p older ih =>
    intro total
    obtain ⟨m, t⟩ := p
    by_cases h : total + t ≤ max
    · have := ih (total + t)
      simp [truncateWalk, h, this.1]
      omega
    · have := ih total
      simp [truncateWalk, h]
      omega

theorem truncateWalk_cost {α : Type} (max : Int) (cost : α → Nat)
    (l : List (α × Nat)) :
    ∀ (total : Int), (∀ p ∈ l, p.2 = cost p.1) → total ≤ max →
      total + (((truncateWalk max l total).1.map cost).sum : Int) ≤ max := by
  induction l with
  | nil => intro total _ h; simpa [truncateWalk]
  | cons p older ih =>
    intro total hc h
    obtain ⟨m, t⟩ := p
    have hm : t = cost m := hc (m, t) (by simp)
    by_cases hfit : total + t ≤ max
    · have := ih (total + t) (fun p hp => hc p (by simp [hp])) hfit
      simp only [truncateWalk, hfit, if_pos, List.map_append, List.sum_append,
        List.map_cons, List.sum_cons, List.map_nil, List.sum_nil]
      push_cast
      push_cast at this
      omega
    · have := ih total (fun p hp => hc p (by simp [hp])) h
      simp only [truncateWalk, hfit, if_false]
      exact this

theorem truncateWalk_mem {α : Type} (max : Int) (l : List (α × Nat)) :
    ∀ total x, x ∈ (truncateWalk max l total).1 → x ∈ l.map Prod.fst := by
  induction l with
  | nil => intro total x hx; simp [truncateWalk] at hx
  | cons p older ih =>
    intro total x hx
    obtain ⟨m, t⟩ := p
    by_cases h : total + t ≤ max
    · simp only [truncateWalk, h, if_pos, List.mem_append, List.mem_singleton] at hx
      rcases hx with hx | rfl
      · exact List.mem_cons_of_mem _ (ih _ x hx)
      · simp
    · simp only [truncateWalk, h, if_false] at hx
      exact List.mem_cons_of_mem _ (ih _ x hx)

def msgOld : ChatMessage := { id := "m1", role := .user, content := "abcd" }

def msgNew : ChatMessage :=
  { id := "m2", role := .user,
    content := "aaaaaaaaaaaaaaaaaaaaaaaaaaaaaaaaaaaaaaaa" }

/-- C3: the claim says that once a message (walking newest to oldest) would
overflow the budget, it and every older message are excluded, so the kept
messages are a suffix of the input.  The loop in `truncateMessages` has no
break: after rejecting the newer expensive message it still keeps the older
cheap one, so the kept list `[msgOld]` is not a suffix of the input — this
also violates the repository's own property tests ("removed messages are
from the beginning", "most recent messages are preserved"). -/
theorem C3_truncate_keeps_older_after_newer_overflow :
    truncateMessages [msgOld, msgNew] 10 =
      ⟨[msgOld], true, 1⟩ ∧
    (truncateMessages [msgOld, msgNew] 10).messages.isSuffixOf
      [msgOld, msgNew] = false := by
  decide

/-- C4 (amended): the total estimated cost of the result (base overhead 3
plus, per kept message, content cost plus per-message overhead 4) is at
most `maxTokens` whenever `maxTokens` is at least the base overhead 3 (an
empty result still costs the base overhead, which can exceed a smaller
budget — see the counterexample); `removedCount` equals input length minus
output length; `wasTruncated` holds iff `removedCount > 0`; empty input
yields an empty, untruncated result; and a single message too large to fit
alone yields an empty output. -/
theorem C4_amended (messages : List ChatMessage) (maxTokens : Int) :
    ((3 : Int) ≤ maxTokens →
      ((totalEstimate (truncateMessages messages maxTokens).messages : Int) ≤
        maxTokens)) ∧
    (truncateMessages messages maxTokens).removedCount =
      messages.length - (truncateMessages messages maxTokens).messages.length ∧
    ((truncateMessages messages maxTokens).truncated = true ↔
      0 < (truncateMessages messages maxTokens).removedCount) ∧
    (messages = [] → truncateMessages messages maxTokens = ⟨[], false, 0⟩) ∧
    (∀ m, messages = [m] →
      maxTokens < ((3 + (countTokens m.content + 4) : Nat) : Int) →
      (truncateMessages messages maxTokens).messages = []) := by
  refine ⟨?_, ?_, ?_, ?_, ?_⟩
  · intro h3
    cases hm : messages with
    | nil => simp [truncateMessages, totalEstimate]; omega
    | cons a l =>
      have hcost : ∀ p ∈ ((a :: l).map
          (fun m => (m, countTokens m.content + 4))).reverse,
          p.2 = countTokens p.1.content + 4 := by
        intro p hp
        rw [List.mem_reverse] at hp
        obtain ⟨m, -, rfl⟩ := List.mem_map.mp hp
        rfl
      have hw := truncateWalk_cost maxTokens
        (fun m => countTokens m.content + 4)
        (((a :: l).map (fun m => (m, countTokens m.content + 4))).reverse)
        3 hcost h3
      simp only [truncateMessages, List.isEmpty_cons, Bool.false_eq_true,
        if_false, totalEstimate]
      push_cast
      push_cast at hw
      omega
  · cases hm : messages with
    | nil => simp [truncateMessages]
    | cons a l =>
      have hw := truncateWalk_removed maxTokens
        (((a :: l).map (fun m => (m, countTokens m.content + 4))).reverse) 3
      simp only [List.length_reverse, List.length_map] at hw
      simp only [truncateMessages, List.isEmpty_cons, Bool.false_eq_true,
        if_false]
      exact hw.1
  · cases hm : messages with
    | nil => simp [truncateMessages]
    | cons a l =>
      simp [truncateMessages]
  · intro h
    subst h
    rfl
  · intro m hm hbig
    subst hm
    simp only [truncateMessages, List.isEmpty_cons, Bool.false_eq_true,
      if_false, List.map_cons, List.map_nil, List.reverse_cons,
      List.reverse_nil, List.nil_append, truncateWalk]
    rw [if_neg (by push_cast at hbig ⊢; omega)]

def msgSmall : ChatMessage := { id := "s", role := .user, content := "hi" }

/-- C4, counterexample to the claim as stated: with `maxTokens = 2` and one
small message, everything is removed and the result's total estimated cost
is the base overhead 3, which exceeds the budget. -/
theorem C4_counterexample :
    ¬ ((totalEstimate (truncateMessages [msgSmall] 2).messages : Int) ≤ 2) := by
  decide

theorem C4_witness :
    ((3 : Int) ≤ 10) ∧
    ((totalEstimate (truncateMessages [msgSmall] 10).messages : Int) ≤ 10) :=
  ⟨by decide, (C4_amended [msgSmall] 10).1 (by decide)⟩

/-- The system-role messages, in order (the source's `systemMessages`). -/
def systemOf (messages : List SMessage) : List SMessage :=
  messages.filter (fun m => m.role == "system")

/-- The non-system messages, in order (the source's `chatMessages`). -/
def chatOf (messages : List SMessage) : List SMessage :=
  messages.filter (fun m => !(m.role == "system"))

/-- Cost of the system messages including the base overhead (the source's
`systemTokens`). -/
def systemTokensOf (messages : List SMessage) : Nat :=
  (systemOf messages).foldl (fun acc m => acc + (countTokens m.content + 4)) 3

/-- The non-system messages the newest-first greedy rule keeps within
`budget`. -/
def greedyKeptChat (budget : Int) (chat : List SMessage) : List SMessage :=
  (truncateWalk budget (chat.map (fun m => (m, countTokens m.content + 4))).reverse
    0).1

/-- C5: `truncateMessagesPreserveSystem` retains every system-role message
in full, places all of them (in order) before the kept non-system messages
regardless of interleaving; when the system messages alone exhaust the
budget (`maxTokens - systemTokens ≤ 0`) zero non-system messages are kept
and the result is truncated iff any non-system message existed; otherwise
the non-system messages are chosen by the same newest-first greedy rule
(`truncateWalk`) within the remaining budget. -/
theorem C5_truncate_preserve_system (messages : List SMessage) (maxTokens : Int) :
    (truncateMessagesPreserveSystem messages maxTokens).messages.take
        (systemOf messages).length = systemOf messages ∧
    (∀ m ∈ (truncateMessagesPreserveSystem messages maxTokens).messages.drop
        (systemOf messages).length, ¬ m.role = "system") ∧
    (maxTokens - (systemTokensOf messages : Nat) ≤ 0 →
      (truncateMessagesPreserveSystem messages maxTokens).messages =
          systemOf messages ∧
        ((truncateMessagesPreserveSystem messages maxTokens).truncated = true ↔
          chatOf messages ≠ [])) ∧
    (0 < maxTokens - (systemTokensOf messages : Nat) →
      (truncateMessagesPreserveSystem messages maxTokens).messages =
          systemOf messages ++
            greedyKeptChat (maxTokens - (systemTokensOf messages : Nat))
              (chatOf messages) ∧
        ((truncateMessagesPreserveSystem messages maxTokens).truncated = true ↔
          (greedyKeptChat (maxTokens - (systemTokensOf messages : Nat))
            (chatOf messages)).length < (chatOf messages).length)) := by
  by_cases hb : maxTokens - (systemTokensOf messages : Nat) ≤ 0
  · have hr : truncateMessagesPreserveSystem messages maxTokens =
        ⟨systemOf messages, decide ((chatOf messages).length > 0)⟩ := by
      simp only [truncateMessagesPreserveSystem, systemOf, chatOf,
        systemTokensOf] at hb ⊢
      rw [if_pos hb]
    refine ⟨?_, ?_, ?_, ?_⟩
    · rw [hr]
      exact List.take_length _
    · rw [hr]
      simp
    · intro _
      rw [hr]
      refine ⟨rfl, ?_⟩
      simp [List.length_pos_iff_ne_nil]
    · intro h
      omega
  · have hr : truncateMessagesPreserveSystem messages maxTokens =
        ⟨systemOf messages ++
          greedyKeptChat (maxTokens - (systemTokensOf messages : Nat))
            (chatOf messages),
          decide ((greedyKeptChat (maxTokens - (systemTokensOf messages : Nat))
            (chatOf messages)).length < (chatOf messages).length)⟩ := by
      simp only [truncateMessagesPreserveSystem, systemOf, chatOf,
        systemTokensOf, greedyKeptChat] at hb ⊢
      rw [if_neg hb]
    refine ⟨?_, ?_, ?_, ?_⟩
    · rw [hr]
      simp [List.take_left]
    · rw [hr]
      simp only [List.drop_left]
      intro m hm
      have := truncateWalk_mem _ _ _ m hm
      simp only [List.map_reverse, List.mem_reverse, List.map_map,
        List.mem_map] at this
      obtain ⟨x, hx, rfl⟩ := this
      simp only [chatOf, List.mem_filter, Bool.not_eq_true] at hx
      intro hcon
      have hx2 := hx.2
      simp only [Function.comp_apply] at hcon
      simp [hcon] at hx2
    · intro h
      omega
    · intro _
      rw [hr]
      exact ⟨rfl, by simp⟩

def demoMsgs : List SMessage :=
  [⟨"user", "hello"⟩, ⟨"system", "sys"⟩, ⟨"user", "again"⟩]

theorem C5_truncate_preserve_system_witness :
    (0 : Int) < 100 - (systemTokensOf demoMsgs : Nat) ∧
    (truncateMessagesPreserveSystem demoMsgs 100).messages =
      systemOf demoMsgs ++
        greedyKeptChat (100 - (systemTokensOf demoMsgs : Nat)) (chatOf demoMsgs) :=
  ⟨by decide,
    ((C5_truncate_preserve_system demoMsgs 100).2.2.2 (by decide)).1⟩

end Tok

namespace WInfo

/-! ### World-info matcher (worldinfo matcher module)

Strings are Lean `String`s.  `toLowerCase` is modelled on the ASCII range
(`Char.toLower`), which covers every key the claims exercise. -/

/-- `WorldInfoEntry` (`types/index.ts`).  `position` is kept as its literal
string; optional booleans model the `entry.flag ?` truthiness tests. -/
structure WorldInfoEntry where
  id : String
  keys : List String
  secondaryKeys : Option (List String) := none
  content : String
  comment : Option String := none
  enabled : Bool
  constant : Option Bool := none
  selective : Option Bool := none
  position : String := "before_char"
  depth : Option Nat := none
  caseSensitive : Option Bool := none
  matchWholeWords : Option Bool := none
  useRegex : Option Bool := none
  order : Int
  priority : Option Int := none
  tokenBudget : Option Nat := none
deriving DecidableEq

/-- ASCII lower-casing of `String.prototype.toLowerCase`. -/
def jsToLower (s : String) : String := ⟨s.data.map Char.toLower⟩

/-- `String.prototype.includes`. -/
def jsIncludes (hay sub : String) : Bool := listContainsSeq sub.data hay.data

def isJsWsChar (c : Char) : Bool :=
  c == ' ' || c == '\t' || c == '\n' || c == '\r' || c == '\x0b' || c == '\x0c'

/-- `String.prototype.trim` (ASCII whitespace). -/
def jsTrim (s : String) : String :=
  ⟨((s.data.dropWhile isJsWsChar).reverse.dropWhile isJsWsChar).reverse⟩

/-! The platform `RegExp`, modelled over the fragment of JavaScript regex
syntax the code can meet: literals, escapes, `.`, character classes,
grouping, alternation and the `* + ?` quantifiers.  Compilation failure
(`new RegExp` throwing `SyntaxError`) is `none`: unmatched `(`/`[`/`)`,
a dangling quantifier, or a trailing backslash.  `{` outside a quantifier
is a literal, as in Annex B.  Matching is a fuelled backtracking search;
its precision on exotic valid patterns is irrelevant to the claims, which
only rely on compilation failure and on literal matching. -/

inductive RE where
  | eps : RE
  | ch (c : Char) : RE
  | anychar : RE
  | cls (neg : Bool) (items : List (Char × Char)) : RE
  | seq (a b : RE) : RE
  | alt (a b : RE) : RE
  | star (a : RE) : RE
  | more (a : RE) : RE
  | opt (a : RE) : RE

/-- Character classes for the `\d \w \s` escapes. -/
def digitCls : RE := .cls false [('0', '9')]
def wordCls : RE := .cls false [('a', 'z'), ('A', 'Z'), ('0', '9'), ('_', '_')]
def spaceCls : RE := .cls false [(' ', ' '), ('\t', '\t'), ('\n', '\n'),
  ('\r', '\r'), ('\x0b', '\x0b'), ('\x0c', '\x0c')]

/-- Parse one escape sequence after a backslash. -/
def parseEscape : List Char → Option (RE × List Char)
  | [] => none
  | c :: rest =>
    if c = 'd' then some (digitCls, rest)
    else if c = 'w' then some (wordCls, rest)
    else if c = 's' then some (spaceCls, rest)
    else if c = 'n' then some (.ch '\n', rest)
    else if c = 't' then some (.ch '\t', rest)
    else if c = 'r' then some (.ch '\r', rest)
    else some (.ch c, rest)

/-- Parse the body of a character class up to `]`. -/
def parseClsItems : Nat → List Char → Option (List (Char × Char) × List Char)
  | 0, _ => none
  | _, [] => none
  | fuel + 1, c :: rest =>
    if c = ']' then some ([], rest)
    else
      match
        (if c = '\\' then
          match rest with
          | [] => none
          | e :: rest' => some (e, rest')
        else some (c, rest) : Option (Char × List Char)) with
      | none => none
      | some (lo, rest1) =>
        match rest1 with
        | '-' :: hi :: rest2 =>
          if hi = ']' then
            (parseClsItems fuel (']' :: rest2)).map
              (fun p => ((lo, lo) :: ('-', '-') :: p.1, p.2))
          else
            (parseClsItems fuel rest2).map (fun p => ((lo, hi) :: p.1, p.2))
        | _ =>
          (parseClsItems fuel rest1).map (fun p => ((lo, lo) :: p.1, p.2))

/-- Postfix quantifiers on an atom. -/
def parsePostfix (a : RE) : List Char → RE × List Char
  | '*' :: rest => (.star a, rest)
  | '+' :: rest => (.more a, rest)
  | '?' :: rest => (.opt a, rest)
  | s => (a, s)

mutual
/-- Alternation level of the pattern grammar. -/
def parseAltRE : Nat → List Char → Option (RE × List Char)
  | 0, _ => none
  | fuel + 1, s => do
    let (a, rest) ← parseSeqRE fuel s
    match rest with
    | '|' :: rest' => do
      let (b, rest2) ← parseAltRE fuel rest'
      some (.alt a b, rest2)
    | _ => some (a, rest)

/-- Concatenation level: a run of quantified atoms. -/
def parseSeqRE : Nat → List Char → Option (RE × List Char)
  | 0, _ => none
  | fuel + 1, s =>
    match s with
    | [] => some (.eps, [])
    | ')' :: _ => some (.eps, s)
    | '|' :: _ => some (.eps, s)
    | _ => do
      let (a, rest) ← parseAtomRE fuel s
      let (a, rest) := parsePostfix a rest
      let (b, rest2) ← parseSeqRE fuel rest
      some (.seq a b, rest2)

/-- One atom: group, class, escape, `.`, or a literal (a dangling
quantifier fails, as `new RegExp` does). -/
def parseAtomRE : Nat → List Char → Option (RE × List Char)
  | 0, _ => none
  | fuel + 1, s =>
    match s with
    | [] => none
    | '(' :: rest =>
      let body :=
        match rest with
        | '?' :: ':' :: rest' => rest'
        | _ => rest
      (do
        let (a, rest2) ← parseAltRE fuel body
        match rest2 with
        | ')' :: rest3 => some (a, rest3)
        | _ => none)
    | '[' :: rest =>
      (match rest with
       | '^' :: rest' =>
         (parseClsItems (rest'.length + 1) rest').map
           (fun p => (.cls true p.1, p.2))
       | _ =>
         (parseClsItems (rest.length + 1) rest).map
           (fun p => (.cls false p.1, p.2)))
    | '\\' :: rest => parseEscape rest
    | '.' :: rest => some (.anychar, rest)
    | '*' :: _ => none
    | '+' :: _ => none
    | '?' :: _ => none
    | ')' :: _ => none
    | c :: rest => some (.ch c, rest)
end

/-- `new RegExp(pattern, flags)`: `none` models the thrown `SyntaxError`.
Flags do not affect compilability. -/
def compileRegex (pattern : String) : Option RE :=
  match parseAltRE (pattern.length + 1) pattern.data with
  | some (re, []) => some re
  | _ => none

/-- Case-insensitive character comparison (the `i` flag). -/
def chEq (ci : Bool) (a b : Char) : Bool :=
  if ci then Char.toLower a == Char.toLower b else a == b

def inRange (ci : Bool) (c : Char) : Char × Char → Bool
  | (lo, hi) =>
    (lo.toNat ≤ c.toNat && c.toNat ≤ hi.toNat) ||
      (ci && lo.toNat ≤ c.toLower.toNat && c.toLower.toNat ≤ hi.toNat) ||
      (ci && lo.toNat ≤ c.toUpper.toNat && c.toUpper.toNat ≤ hi.toNat)

/-- Fuelled backtracking matcher in continuation style; the continuation
receives the unread rest of the text. -/
def matchK (ci : Bool) : Nat → RE → List Char → (List Char → Bool) → Bool
  | 0, _, _, _ => false
  | _ + 1, .eps, s, k => k s
  | _ + 1, .ch c, s, k =>
    match s with
    | [] => false
    | c' :: t => chEq ci c c' && k t
  | _ + 1, .anychar, s, k =>
    match s with
    | [] => false
    | c' :: t => (c' != '\n') && k t
  | _ + 1, .cls neg items, s, k =>
    match s with
    | [] => false
    | c' :: t => (neg != items.any (inRange ci c')) && k t
  | fuel + 1, .seq a b, s, k =>
    matchK ci fuel a s (fun s' => matchK ci fuel b s' k)
  | fuel + 1, .alt a b, s, k =>
    matchK ci fuel a s k || matchK ci fuel b s k
  | fuel + 1, .star a, s, k =>
    k s || matchK ci fuel a s (fun s' =>
      if s'.length < s.length then matchK ci fuel (.star a) s' k else false)
  | fuel + 1, .more a, s, k =>
    matchK ci fuel (.seq a (.star a)) s k
  | fuel + 1, .opt a, s, k =>
    matchK ci fuel a s k || k s

/-- Structural size of a regex, for fuel accounting. -/
def reSize : RE → Nat
  | .eps => 1
  | .ch _ => 1
  | .anychar => 1
  | .cls _ _ => 1
  | .seq a b => reSize a + reSize b + 1
  | .alt a b => reSize a + reSize b + 1
  | .star a => reSize a + 1
  | .more a => reSize a + 2
  | .opt a => reSize a + 1

/-- Fuel ample for any anchoring position of the texts in play. -/
def reFuel (re : RE) (len : Nat) : Nat := (reSize re + 2) * (len + 2)

/-- `re.test(text)`: an unanchored search tries every start position. -/
def regexTest (ci : Bool) (re : RE) (text : List Char) : Bool :=
  (List.range (text.length + 1)).any
    (fun i => matchK ci (reFuel re text.length) re (text.drop i) (fun _ => true))

/-- Word characters of the `\b` assertion. -/
def isWordChar (c : Char) : Bool :=
  ('a' ≤ c && c ≤ 'z') || ('A' ≤ c && c ≤ 'Z') || ('0' ≤ c && c ≤ '9') || c == '_'

def wordAt (chars : List Char) (i : Nat) : Bool :=
  match chars.drop i with
  | [] => false
  | c :: _ => isWordChar c

/-- `\b` holds at position `i` when exactly one neighbour is a word char. -/
def boundaryAt (chars : List Char) (i : Nat) : Bool :=
  (match i with | 0 => false | j + 1 => wordAt chars j) != wordAt chars i

def seqAt (ci : Bool) (key text : List Char) (i : Nat) : Bool :=
  (List.range key.length).all
    (fun j =>
      match (text.drop (i + j)), key.drop j with
      | c :: _, kc :: _ => chEq ci kc c
      | _, _ => false)

/-- `new RegExp("\\b" + escapeRegex(key) + "\\b", flags).test(text)`:
the escaped key matches literally between two word boundaries. -/
def wholeWordMatch (ci : Bool) (key text : String) : Bool :=
  (List.range (text.length + 1)).any
    (fun i =>
      seqAt ci key.data text.data i &&
      boundaryAt text.data i && boundaryAt text.data (i + key.length))

/-- `matchesKeyword` (world-info matcher).  The regex branch builds
`new RegExp(keyword, cs ? 'g' : 'gi')` inside `try` and falls back to a
literal `includes` on the case-adjusted strings when compilation throws. -/
def matchesKeyword (text keyword : String) (e : WorldInfoEntry) : Bool :=
  if keyword == "" || (jsTrim keyword).length == 0 then false
  else
    let cs := e.caseSensitive.getD false
    let searchText := if cs then text else jsToLower text
    let searchKeyword := if cs then keyword else jsToLower keyword
    if e.useRegex.getD false then
      match compileRegex keyword with
      | some re => regexTest (!cs) re text.data
      | none => jsIncludes searchText searchKeyword
    else if e.matchWholeWords.getD false then
      wholeWordMatch (!cs) searchKeyword text
    else
      jsIncludes searchText searchKeyword

/-- `matchesEntry`: disabled entries never match, constant entries always
do; otherwise some primary key must match, and for selective entries with
non-empty secondary keys some secondary key must too. -/
def matchesEntry (text : String) (e : WorldInfoEntry) : Bool :=
  if !e.enabled then false
  else if e.constant.getD false then true
  else
    let primaryMatch := e.keys.any (fun k => matchesKeyword text k e)
    if !primaryMatch then false
    else if e.selective.getD false && (e.secondaryKeys.getD []).length > 0 then
      (e.secondaryKeys.getD []).any (fun k => matchesKeyword text k e)
    else true

/-- The sort comparator of `scanForMatches`: descending priority
(missing priority read as 0), ties by ascending order. -/
def wiCmp (a b : WorldInfoEntry) : Int :=
  let priorityDiff := (b.priority.getD 0) - (a.priority.getD 0)
  if priorityDiff ≠ 0 then priorityDiff else a.order - b.order

def wiLe (a b : WorldInfoEntry) : Bool := wiCmp a b ≤ 0

/-- `scanForMatches`: filter by `matchesEntry`, then `Array.prototype.sort`
(stable) with the comparator above. -/
def scanForMatches (text : String) (entries : List WorldInfoEntry) :
    List WorldInfoEntry :=
  stableSort wiLe (entries.filter (matchesEntry text))

theorem wiLe_iff (a b : WorldInfoEntry) :
    wiLe a b = true ↔
      (b.priority.getD 0 < a.priority.getD 0 ∨
        (a.priority.getD 0 = b.priority.getD 0 ∧ a.order ≤ b.order)) := by
  simp only [wiLe, wiCmp, decide_eq_true_eq]
  split_ifs with h
  · constructor
    · intro hle; omega
    · intro hor; omega
  · constructor
    · intro hle; omega
    · intro hor; omega

theorem wiLe_total (a b : WorldInfoEntry) : wiLe a b || wiLe b a := by
  rw [Bool.or_eq_true, wiLe_iff, wiLe_iff]
  omega

theorem wiLe_trans (a b c : WorldInfoEntry) :
    wiLe a b = true → wiLe b c = true → wiLe a c = true := by
  rw [wiLe_iff, wiLe_iff, wiLe_iff]
  omega

/-- Sample entries for the concrete C6 scenarios. -/
def entOrder1 : WorldInfoEntry :=
  { id := "a", keys := ["k"], content := "A", enabled := true,
    order := 1, priority := some 10 }

def entOrder0 : WorldInfoEntry :=
  { id := "b", keys := ["k"], content := "B", enabled := true,
    order := 0, priority := some 10 }

def entPrio1 : WorldInfoEntry :=
  { id := "c", keys := ["k"], content := "C", enabled := true,
    order := 0, priority := some 1 }

def entPrio10 : WorldInfoEntry :=
  { id := "d", keys := ["k"], content := "D", enabled := true,
    order := 5, priority := some 10 }

/-- C6: `scanForMatches` returns exactly the entries matching the scan
text, sorted by descending priority (missing priority read as 0) with
ties broken by ascending order, stably on equal (priority, order) pairs;
in the concrete scenarios, two priority-10 matches with orders 1 and 0
come out [order 0, order 1], and a priority-1 and a priority-10 match
come out [priority 10, priority 1] in either input order. -/
theorem C6_scanForMatches_sorted (text : String)
    (entries : List WorldInfoEntry) :
    List.Perm (scanForMatches text entries)
      (entries.filter (matchesEntry text)) ∧
    (scanForMatches text entries).Pairwise
      (fun a b => b.priority.getD 0 < a.priority.getD 0 ∨
        (a.priority.getD 0 = b.priority.getD 0 ∧ a.order ≤ b.order)) ∧
    (∀ p o,
      (scanForMatches text entries).filter
          (fun e => e.priority.getD 0 == p && e.order == o) =
        (entries.filter (matchesEntry text)).filter
          (fun e => e.priority.getD 0 == p && e.order == o)) ∧
    scanForMatches "k" [entOrder1, entOrder0] = [entOrder0, entOrder1] ∧
    scanForMatches "k" [entPrio1, entPrio10] = [entPrio10, entPrio1] ∧
    scanForMatches "k" [entPrio10, entPrio1] = [entPrio10, entPrio1] := by
  refine ⟨stableSort_perm _ _, ?_, ?_, by decide, by decide, by decide⟩
  · exact (stableSort_pairwise wiLe_total wiLe_trans _).imp
      (fun h => (wiLe_iff _ _).mp h)
  · intro p o
    refine stableSort_filter ?_ _
    intro x y hx hy
    simp only [Bool.and_eq_true, beq_iff_eq] at hx hy
    rw [wiLe_iff]
    omega

end WInfo

namespace PBuild

open WInfo (WorldInfoEntry jsToLower jsTrim jsIncludes compileRegex regexTest
  wholeWordMatch)
open Tok (ChatMessage Role SMessage)

/-! ### Prompt builder (prompt-builder module)

Strings are Lean `String`s; `String.length`/`drop` count codepoints where
JavaScript counts UTF-16 units — they agree on the BMP texts in play. -/

/-- `CharacterData` as the prompt builder consumes it, optional strings
flattened to `""` ≙ absent (the builder only ever truthiness-tests them). -/
structure CharacterData where
  name : String
  description : String
  personality : String
  scenario : String
  first_mes : String
  mes_example : String
  system_prompt : String := ""
deriving DecidableEq

structure Persona where
  id : String
  name : String
  description : String
deriving DecidableEq

/-- `AuthorsNote` (`types/index.ts`); `position` keeps its literal string
so the `switch` default arm is modelled faithfully. -/
structure AuthorsNote where
  content : String
  position : String
  depth : Nat
  role : String := "system"
deriving DecidableEq

structure WorldInfoBook where
  id : String
  name : String
  description : Option String := none
  entries : List WorldInfoEntry
deriving DecidableEq

structure InstructTemplate where
  id : String := ""
  name : String := ""
  systemPromptPrefix : String
  systemPromptSuffix : String
  userPrefix : String
  userSuffix : String
  assistantPrefix : String
  assistantSuffix : String
  stopSequences : List String := []
  wrapInNewlines : Bool
deriving DecidableEq

structure PromptContext where
  character : CharacterData
  chatHistory : List ChatMessage
  worldInfo : Option (List WorldInfoBook) := none
  persona : Option Persona := none
  authorsNote : Option AuthorsNote := none
  systemPrompt : Option String := none
  instructTemplate : Option InstructTemplate := none
  maxContextTokens : Nat

structure PromptResult where
  messages : List SMessage
  tokenCount : Nat
  truncated : Bool
deriving DecidableEq

/-- `buildSystemMessage`: custom prompt, character system prompt, persona
description — each only when truthy (non-empty). -/
def buildSystemMessage (character : CharacterData) (persona : Option Persona)
    (customSystemPrompt : Option String) : String :=
  let parts : List String :=
    (match customSystemPrompt with
     | some s => if s == "" then [] else [s]
     | none => []) ++
    (if character.system_prompt == "" then [] else [character.system_prompt]) ++
    (match persona with
     | some p => if p.description == "" then []
                 else ["User's persona: " ++ p.description]
     | none => [])
  String.intercalate "\n\n" parts

/-- `buildCharacterContext`. -/
def buildCharacterContext (character : CharacterData) : String :=
  let parts : List String :=
    (if character.description == "" then []
     else ["Character: " ++ character.name ++ "\n" ++ character.description]) ++
    (if character.personality == "" then []
     else ["Personality: " ++ character.personality]) ++
    (if character.scenario == "" then []
     else ["Scenario: " ++ character.scenario])
  String.intercalate "\n\n" parts

/-- Accumulator of the `parseExampleMessages` line loop. -/
structure ExState where
  currentRole : Option String
  currentContent : List String
  acc : List SMessage

/-- Push the pending message, as the loop does at each marker and at the
end: only when a role is set and at least one content line was gathered. -/
def flushEx (st : ExState) : List SMessage :=
  match st.currentRole with
  | some r =>
    if st.currentContent.length > 0 then
      st.acc ++ [⟨r, jsTrim (String.intercalate "\n" st.currentContent)⟩]
    else st.acc
  | none => st.acc

/-- One line of `parseExampleMessages`.  The character-name marker models
`new RegExp('^' + characterName + ':', 'i')` for names without regex
metacharacters (the code interpolates the name unescaped). -/
def exStep (characterName : String) (st : ExState) (line : String) : ExState :=
  if jsToLower line == "<start>" then
    { currentRole := none, currentContent := [], acc := flushEx st }
  else if (jsToLower line).startsWith (jsToLower characterName ++ ":") then
    { currentRole := some "assistant",
      currentContent := [jsTrim (line.drop (characterName.length + 1))],
      acc := flushEx st }
  else if (jsToLower line).startsWith "\x7b\x7buser\x7d\x7d:" then
    { currentRole := some "user",
      currentContent := [jsTrim (line.drop 9)], acc := flushEx st }
  else if (jsToLower line).startsWith "user:" then
    { currentRole := some "user",
      currentContent := [jsTrim (line.drop 5)], acc := flushEx st }
  else
    match st.currentRole with
    | some _ => { st with currentContent := st.currentContent ++ [line] }
    | none => st

/-- `parseExampleMessages`. -/
def parseExampleMessages (mesExample characterName : String) : List SMessage :=
  if jsTrim mesExample == "" then []
  else
    flushEx ((mesExample.splitOn "\n").foldl (exStep characterName)
      ⟨none, [], []⟩)

/-- The inline key test of `scanAndCollectWorldInfo`.  Unlike the matcher
module's `matchesKeyword`, an invalid regex here returns `false`
(`catch { return false; }`), and the whole-word regex always gets flag
`'i'` and runs on the case-adjusted text. -/
def pbKeyMatches (scanText : String) (e : WorldInfoEntry) (key : String) :
    Bool :=
  if e.useRegex.getD false then
    match compileRegex key with
    | some re => regexTest (!(e.caseSensitive.getD false)) re scanText.data
    | none => false
  else
    let searchKey := if e.caseSensitive.getD false then key else jsToLower key
    let searchText :=
      if e.caseSensitive.getD false then scanText else jsToLower scanText
    if e.matchWholeWords.getD false then wholeWordMatch true searchKey searchText
    else jsIncludes searchText searchKey

/-- `scanAndCollectWorldInfo`: scan text is the last 10 messages joined
with spaces and lower-cased; enabled entries match by some key (or are
constant); the result is sorted by ascending order only and joined. -/
def scanAndCollectWorldInfo (chatHistory : List ChatMessage)
    (worldInfoBooks : List WorldInfoBook) : String :=
  let recentMessages := chatHistory.drop (chatHistory.length - 10)
  let scanText :=
    jsToLower (String.intercalate " " (recentMessages.map (·.content)))
  let matchedEntries := worldInfoBooks.foldl
    (fun acc book =>
      acc ++ book.entries.filter
        (fun e => e.enabled &&
          (e.keys.any (pbKeyMatches scanText e) || e.constant.getD false)))
    []
  let sorted :=
    stableSort (fun a b => decide (a.order ≤ b.order)) matchedEntries
  String.intercalate "\n\n" (sorted.map (·.content))

/-- `injectAuthorsNote`: the `switch` has arms for `before_char` and
`after_char` only; everything else (notably `in_chat`) falls to the
`default` arm, which returns the content unchanged. -/
def injectAuthorsNote (content : String) (authorsNote : AuthorsNote) :
    String :=
  let noteText := "[Author's Note: " ++ authorsNote.content ++ "]"
  if authorsNote.position == "before_char" then noteText ++ "\n" ++ content
  else if authorsNote.position == "after_char" then content ++ "\n" ++ noteText
  else content

/-- `applyInstructTemplate`. -/
def applyInstructTemplate (messages : List SMessage)
    (template : InstructTemplate) : List SMessage :=
  messages.map (fun msg =>
    let content :=
      if msg.role == "system" then
        template.systemPromptPrefix ++ msg.content ++ template.systemPromptSuffix
      else if msg.role == "user" then
        template.userPrefix ++ msg.content ++ template.userSuffix
      else if msg.role == "assistant" then
        template.assistantPrefix ++ msg.content ++ template.assistantSuffix
      else msg.content
    let content :=
      if template.wrapInNewlines then "\n" ++ content ++ "\n" else content
    ⟨msg.role, content⟩)

/-- The body of the chat-history `for` loop of `buildPrompt`: `total` is
`chatHistory.length`, `i` the current index. -/
def historyMap (total : Nat) (authorsNote : Option AuthorsNote) :
    Nat → List ChatMessage → List SMessage
  | _, [] => []
  | i, msg :: rest =>
    let content :=
      match authorsNote with
      | some an =>
        if an.position == "in_chat" && total - 1 - i == an.depth
        then injectAuthorsNote msg.content an
        else msg.content
      | none => msg.content
    ⟨if msg.role == Role.user then "user" else "assistant", content⟩ ::
      historyMap total authorsNote (i + 1) rest

/-- The chat-history mapping step of `buildPrompt`, with the author's-note
depth test. -/
def historyMessages (chatHistory : List ChatMessage)
    (authorsNote : Option AuthorsNote) : List SMessage :=
  historyMap chatHistory.length authorsNote 0 chatHistory

/-- `buildPrompt`. -/
def buildPrompt (context : PromptContext) : PromptResult :=
  let systemContent :=
    buildSystemMessage context.character context.persona context.systemPrompt
  let worldInfoContent :=
    match context.worldInfo with
    | some books => scanAndCollectWorldInfo context.chatHistory books
    | none => ""
  let sysMsgs : List SMessage :=
    if systemContent == "" && worldInfoContent == "" then []
    else
      [⟨"system",
        systemContent ++
          (if worldInfoContent == "" then "" else "\n\n" ++ worldInfoContent)⟩]
  let characterContext := buildCharacterContext context.character
  let charMsgs : List SMessage :=
    if characterContext == "" then [] else [⟨"system", characterContext⟩]
  let exampleMsgs : List SMessage :=
    if context.character.mes_example == "" then []
    else parseExampleMessages context.character.mes_example
      context.character.name
  let messages :=
    sysMsgs ++ charMsgs ++ exampleMsgs ++
      historyMessages context.chatHistory context.authorsNote
  let finalMessages :=
    match context.instructTemplate with
    | some t => applyInstructTemplate messages t
    | none => messages
  let totalChars := finalMessages.foldl (fun sum m => sum + m.content.length) 0
  let estimatedTokens := (totalChars + 3) / 4
  { messages := finalMessages, tokenCount := estimatedTokens,
    truncated := decide (estimatedTokens > context.maxContextTokens) }

end PBuild

/-! ### C7 / C8: cross-module world-info and author's-note facts -/

/-- Enabled regex entry whose pattern `(` fails to compile. -/
def regexEntry : WInfo.WorldInfoEntry :=
  { id := "r", keys := ["("], content := "LORE", enabled := true,
    useRegex := some true, order := 0 }

def parenMsg : Tok.ChatMessage := { id := "m1", role := .user, content := "(" }

def parenBook : PBuild.WorldInfoBook :=
  { id := "b", name := "B", entries := [regexEntry] }

/-- C7 counterexample: the pattern `(` does not compile; the matcher
module's `matchesEntry` falls back to a literal search and matches the
text `(`, but the prompt builder's scan path drops the same entry on the
same text, yielding no world-info content. -/
theorem C7_counterexample :
    WInfo.compileRegex "(" = none ∧
    WInfo.matchesEntry "(" regexEntry = true ∧
    PBuild.scanAndCollectWorldInfo [parenMsg] [parenBook] = "" :=
  ⟨rfl, by decide, by decide⟩

/-- C7 (amended): on a non-compiling pattern, the matcher module's
`matchesKeyword` degrades to a literal substring search honouring
`caseSensitive`, but the prompt builder's inline key test returns
`false` — the fallback holds in only one of the two code paths that
evaluate world-info keys. -/
theorem C7_invalid_regex_fallback :
    (∀ (text keyword : String) (e : WInfo.WorldInfoEntry),
      e.useRegex.getD false = true →
      WInfo.compileRegex keyword = none →
      (keyword == "" || (WInfo.jsTrim keyword).length == 0) = false →
      WInfo.matchesKeyword text keyword e =
        WInfo.jsIncludes
          (if e.caseSensitive.getD false then text else WInfo.jsToLower text)
          (if e.caseSensitive.getD false then keyword
           else WInfo.jsToLower keyword)) ∧
    (∀ (scanText keyword : String) (e : WInfo.WorldInfoEntry),
      e.useRegex.getD false = true →
      WInfo.compileRegex keyword = none →
      PBuild.pbKeyMatches scanText e keyword = false) := by
  constructor
  · intro text keyword e hre hc hkw
    simp only [WInfo.matchesKeyword, hkw, hre, hc, Bool.false_eq_true,
      if_false, if_true]
  · intro scanText keyword e hre hc
    simp only [PBuild.pbKeyMatches, hre, hc, if_true]

/-- C7 witness: the fallback equations at the concrete failing pattern. -/
theorem C7_invalid_regex_fallback_witness :
    (WInfo.matchesKeyword "(" "(" regexEntry =
      WInfo.jsIncludes
        (if regexEntry.caseSensitive.getD false then "("
         else WInfo.jsToLower "(")
        (if regexEntry.caseSensitive.getD false then "("
         else WInfo.jsToLower "(")) ∧
    PBuild.pbKeyMatches "(" regexEntry "(" = false :=
  ⟨C7_invalid_regex_fallback.1 "(" "(" regexEntry (by decide) rfl (by decide),
   C7_invalid_regex_fallback.2 "(" "(" regexEntry (by decide) rfl⟩

namespace PBuild

open Tok (ChatMessage Role SMessage)

theorem injectAuthorsNote_in_chat (content : String) (an : AuthorsNote)
    (h : an.position = "in_chat") : injectAuthorsNote content an = content := by
  simp [injectAuthorsNote, h]

theorem historyMap_in_chat (an : AuthorsNote) (h : an.position = "in_chat")
    (total : Nat) (i : Nat) (l : List ChatMessage) :
    historyMap total (some an) i l =
      l.map (fun m =>
        ⟨if m.role == Role.user then "user" else "assistant", m.content⟩) := by
  induction l generalizing i with
  | nil => rfl
  | cons msg rest ih =>
    simp only [historyMap, h, List.map_cons, ih]
    rw [injectAuthorsNote_in_chat _ _ h]
    simp

end PBuild

/-- C8: an author's note with position `in_chat` is never injected —
`injectAuthorsNote`'s switch has no `in_chat` arm, so it returns the
content unchanged, and consequently every history turn of the built
prompt carries its original content whatever the note's depth. -/
theorem C8_authors_note_in_chat_never_injected :
    (∀ (content : String) (an : PBuild.AuthorsNote),
      an.position = "in_chat" →
      PBuild.injectAuthorsNote content an = content) ∧
    (∀ (ctx : PBuild.PromptContext) (an : PBuild.AuthorsNote),
      ctx.authorsNote = some an → an.position = "in_chat" →
      ctx.instructTemplate = none →
      ∃ pre, (PBuild.buildPrompt ctx).messages =
        pre ++ ctx.chatHistory.map (fun m =>
          ⟨if m.role == Tok.Role.user then "user" else "assistant",
            m.content⟩)) := by
  constructor
  · exact fun content an h => PBuild.injectAuthorsNote_in_chat content an h
  · intro ctx an hnote hpos htmpl
    simp only [PBuild.buildPrompt, htmpl, hnote, PBuild.historyMessages,
      PBuild.historyMap_in_chat an hpos]
    exact ⟨_, rfl⟩

/-- The concrete `in_chat` note and context of the C8 witness. -/
def noteChat : PBuild.AuthorsNote :=
  { content := "nb", position := "in_chat", depth := 0 }

def char8 : PBuild.CharacterData :=
  { name := "A", description := "", personality := "",
    scenario := "", first_mes := "", mes_example := "" }

def ctx8 : PBuild.PromptContext :=
  { character := char8,
    chatHistory := [⟨"m1", .user, "Hello", 0, none, none, none⟩],
    authorsNote := some noteChat,
    maxContextTokens := 100 }

/-- C8 witness: at depth 0 over a one-turn history the note text appears
nowhere — the built prompt is exactly the untouched turn. -/
theorem C8_authors_note_witness :
    PBuild.injectAuthorsNote "Hello" noteChat = "Hello" ∧
    (∃ pre, (PBuild.buildPrompt ctx8).messages =
      pre ++ ctx8.chatHistory.map (fun m =>
        ⟨if m.role == Tok.Role.user then "user" else "assistant",
          m.content⟩)) ∧
    (PBuild.buildPrompt ctx8).messages = [⟨"user", "Hello"⟩] :=
  ⟨C8_authors_note_in_chat_never_injected.1 "Hello" noteChat rfl,
   C8_authors_note_in_chat_never_injected.2 ctx8 noteChat rfl rfl rfl,
   by decide⟩

namespace Chat

open Tok (ChatMessage Role)

/-! ### Chat manager (`forkChat`, chat-manager module)

`generateId()` (a UUIDv4 supply) is modelled as an explicit id supply
`gen : Nat → String` consumed in call order: the forked session's own id
is drawn first, then one id per copied message; `getCurrentTimestamp()`
is the explicit `now`.  The thrown `Error` is the `Except.error` value. -/

structure ChatMetadata where
  authorsNote : Option String := none
  authorsNotePosition : Option Int := none
  authorsNoteDepth : Option Nat := none
  worldInfoBooks : Option (List String) := none
  personaId : Option String := none
  instructTemplate : Option String := none
deriving DecidableEq

structure ChatSession where
  id : String
  characterId : String
  groupId : Option String := none
  messages : List ChatMessage
  metadata : ChatMetadata
  createdAt : Int
  updatedAt : Int
deriving DecidableEq

/-- `messages.slice(0, i + 1).map((m) => ({ ...m, id: generateId() }))`:
the spread copies every field, then the id is overwritten with the next
fresh id (`k` counts ids already consumed). -/
def forkMessages (gen : Nat → String) : Nat → List ChatMessage →
    List ChatMessage
  | _, [] => []
  | k, m :: rest => { m with id := gen (k + 1) } :: forkMessages gen (k + 1) rest

/-- `forkChat` (chat-manager): find the fork point by id, error when
absent, else build a fresh session from the prefix up to and including
it, with a new session id, per-message new ids, a shallow copy of the
metadata, and both timestamps set to now. -/
def forkChat (session : ChatSession) (fromMessageId : String)
    (gen : Nat → String) (now : Int) : Except String ChatSession :=
  match session.messages.findIdx? (fun m => m.id == fromMessageId) with
  | none => .error ("Message not found: " ++ fromMessageId)
  | some messageIndex =>
    .ok { id := gen 0,
          characterId := session.characterId,
          groupId := session.groupId,
          messages := forkMessages gen 0
            (session.messages.take (messageIndex + 1)),
          metadata := session.metadata,
          createdAt := now,
          updatedAt := now }

/-- A message with its id blanked, for id-independent comparison. -/
def stripId (m : ChatMessage) : ChatMessage := { m with id := "" }

theorem forkMessages_length (gen : Nat → String) (k : Nat)
    (l : List ChatMessage) : (forkMessages gen k l).length = l.length := by
  induction l generalizing k with
  | nil => rfl
  | cons m rest ih => simp [forkMessages, ih]

theorem forkMessages_stripId (gen : Nat → String) (k : Nat)
    (l : List ChatMessage) :
    (forkMessages gen k l).map stripId = l.map stripId := by
  induction l generalizing k with
  | nil => rfl
  | cons m rest ih => simp [forkMessages, ih, stripId]

theorem forkMessages_ids (gen : Nat → String) (k : Nat)
    (l : List ChatMessage) :
    (forkMessages gen k l).map (fun m => m.id) =
      (List.range l.length).map (fun j => gen (k + j + 1)) := by
  induction l generalizing k with
  | nil => rfl
  | cons m rest ih =>
    simp only [forkMessages, List.map_cons, List.length_cons, List.range_succ_eq_map,
      List.map_map, ih]
    refine congrArg₂ (· :: ·) (by simp) ?_
    apply List.map_congr_left
    intro j hj
    simp only [Function.comp_apply]
    congr 1
    omega

end Chat

/-- C9: forking at the message found at index `i` yields a fresh session
with exactly `i + 1` messages — the source's prefix up to and including
the fork point, id-stripped equal — whose ids are all drawn fresh from
the id supply (session id first), so they are pairwise distinct and
disjoint from the source's ids whenever the supply is; the metadata is
copied and both timestamps are the fork time; an absent id errors. -/
theorem C9_forkChat_copies_head_segment (s : Chat.ChatSession) (fromId : String)
    (gen : Nat → String) (now : Int) :
    (s.messages.findIdx? (fun m => m.id == fromId) = none →
      Chat.forkChat s fromId gen now =
        .error ("Message not found: " ++ fromId)) ∧
    (∀ i, s.messages.findIdx? (fun m => m.id == fromId) = some i →
      ∃ f, Chat.forkChat s fromId gen now = .ok f ∧
        f.messages.length = i + 1 ∧
        f.messages.map Chat.stripId =
          (s.messages.take (i + 1)).map Chat.stripId ∧
        f.messages.map (fun m => m.id) =
          (List.range (i + 1)).map (fun j => gen (j + 1)) ∧
        f.id = gen 0 ∧ f.characterId = s.characterId ∧
        f.groupId = s.groupId ∧ f.metadata = s.metadata ∧
        f.createdAt = now ∧ f.updatedAt = now ∧
        (Function.Injective gen → (f.messages.map (fun m => m.id)).Nodup) ∧
        ((∀ n, ∀ m ∈ s.messages, gen n ≠ m.id) →
          ∀ fm ∈ f.messages, ∀ m ∈ s.messages, fm.id ≠ m.id)) := by
  constructor
  · intro h
    simp [Chat.forkChat, h]
  · intro i hi
    have hlt : i < s.messages.length :=
      (List.findIdx?_eq_some_iff_findIdx_eq.mp hi).1
    have h1 : (s.messages.take (i + 1)).length = i + 1 := by
      rw [List.length_take]; omega
    have hids :
        (Chat.forkMessages gen 0 (s.messages.take (i + 1))).map
            (fun m => m.id) =
          (List.range (i + 1)).map (fun j => gen (j + 1)) := by
      rw [Chat.forkMessages_ids, h1]
      simp
    refine ⟨Chat.ChatSession.mk (gen 0) s.characterId s.groupId
        (Chat.forkMessages gen 0 (s.messages.take (i + 1))) s.metadata now now,
      by simp [Chat.forkChat, hi], ?_, Chat.forkMessages_stripId _ _ _,
      hids, rfl, rfl, rfl, rfl, rfl, rfl, ?_, ?_⟩
    · rw [Chat.forkMessages_length, h1]
    · intro hinj
      rw [hids]
      exact List.Nodup.map
        (fun a b hab => Nat.succ_injective (hinj hab)) (List.nodup_range _)
    · intro hfresh fm hfm m hm heq
      have hmem : fm.id ∈
          (Chat.forkMessages gen 0 (s.messages.take (i + 1))).map
            (fun m => m.id) :=
        List.mem_map_of_mem (fun m => m.id) hfm
      rw [hids] at hmem
      obtain ⟨j, hj, hjid⟩ := List.mem_map.mp hmem
      exact hfresh (j + 1) m hm (by rw [hjid, heq])

/-- Concrete id supply and session of the C9 witness. -/
def gen9 (n : Nat) : String := String.mk ('g' :: List.replicate n 'x')

def s9 : Chat.ChatSession :=
  { id := "s", characterId := "c1",
    messages := [⟨"a", .user, "hi", 1, none, none, none⟩,
      ⟨"b", .assistant, "yo", 2, none, none, none⟩,
      ⟨"c", .user, "third", 3, none, none, none⟩],
    metadata := {}, createdAt := 0, updatedAt := 0 }

/-- C9 witness: forking the concrete three-message session at an absent
id errors, and at "b" (index 1) keeps the first two messages with fresh
ids. -/
theorem C9_forkChat_witness :
    Chat.forkChat s9 "zzz" gen9 7 =
      .error ("Message not found: " ++ "zzz") ∧
    Chat.forkChat s9 "b" gen9 7 =
      .ok { id := "g", characterId := "c1",
            messages := [⟨"gx", .user, "hi", 1, none, none, none⟩,
              ⟨"gxx", .assistant, "yo", 2, none, none, none⟩],
            metadata := {}, createdAt := 7, updatedAt := 7 } :=
  ⟨(C9_forkChat_copies_head_segment s9 "zzz" gen9 7).1 (by decide), by rfl⟩

namespace Codec

theorem mkV2Card_get_data (d : Json) :
    (mkV2Card d).get? (jstr "data") = some d := by
  simp +decide [mkV2Card, Json.get?, get?_objOfFields_self, get?_objOfFields_ne,
    get?_objOfFields_nil]

theorem isV1Card_no_spec {j : Json} (h : isV1Card j = true) :
    j.hasField (jstr "spec") = false := by
  simp only [isV1Card, Bool.and_eq_true, Bool.not_eq_true'] at h
  exact h.2

theorem isV2Card_eq_false_of_no_spec {j : Json}
    (h : j.hasField (jstr "spec") = false) : isV2Card j = false := by
  simp [isV2Card, h]

theorem Json.isNull_eq_false_of_ne {d : Json} (h : d ≠ .null) :
    d.isNull = false := by
  cases d <;> first | exact absurd rfl h | rfl

/-- Spec-less object carrying `data: null` and an (empty) `name`: the
nested-data guard passes (`typeof null === 'object'`) and `'name' in null`
throws. -/
def dataNullEmptyName : Json := .obj (objOfFields
  [("data", some .null),
   ("name", some (.str []))])

/-- C10 counterexample: an input without a `spec` tag whose `name` field
is present (and empty) that `parseCharacterCard` does not accept — it
throws a `TypeError` from `'name' in null` instead. -/
theorem C10_counterexample :
    dataNullEmptyName.hasField (jstr "spec") = false ∧
    dataNullEmptyName.get? (jstr "name") = some (.str []) ∧
    parseCharacterCard dataNullEmptyName =
      .error (jstr "Cannot use 'in' operator to search for 'name' in null") :=
  ⟨by decide, rfl, rfl⟩

/-- C10 (amended): an input without a `spec` tag whose `name` is present —
even as the empty string — is accepted provided it does not carry a
`data` field holding `null` (there the nested-branch guard passes and
`'name' in null` throws a `TypeError`): on the generation-1 shape the
conversion keeps `data.name = ''`, and in general any other spec-less
object carrying a `name` parses successfully; a generation-2 card whose
`data.name` is the empty string is instead rejected with "Character name
is required": emptiness of `name` is treated as absence only on the
generation-2 validation path. -/
theorem C10_empty_name_asymmetry :
    (∀ j : Json, isV1Card j = true →
      j.getD (jstr "name") = .str [] →
      parseCharacterCard j = .ok (convertV1ToV2 j) ∧
      ((convertV1ToV2 j).getD (jstr "data")).get? (jstr "name") =
        some (.str [])) ∧
    (∀ j : Json, jsIsObjectType j = true →
      j.hasField (jstr "spec") = false →
      j.hasField (jstr "name") = true →
      j.get? (jstr "data") ≠ some .null →
      ∃ card, parseCharacterCard j = .ok card) ∧
    (∀ j : Json, isV2Card j = true →
      (j.getD (jstr "data")).truthy = true →
      (j.getD (jstr "data")).getD (jstr "name") = .str [] →
      parseCharacterCard j =
        .error (jstr "Character name is required")) := by
  refine ⟨?_, ?_, ?_⟩
  · intro j h1 hname
    have hv2 : isV2Card j = false :=
      isV2Card_eq_false_of_no_spec (isV1Card_no_spec h1)
    constructor
    · simp [parseCharacterCard, hv2, h1]
    · rw [convertV1ToV2, Json.getD_of_get? (mkV2Card_get_data _)]
      simp +decide [Json.get?, get?_objOfFields_self, get?_objOfFields_ne,
        get?_objOfFields_nil, hname, jsOr, Json.truthy]
  · intro j hobj hspec hname hdn
    have hv2 : isV2Card j = false := isV2Card_eq_false_of_no_spec hspec
    by_cases h1 : isV1Card j = true
    · exact ⟨convertV1ToV2 j, by simp [parseCharacterCard, hv2, h1]⟩
    · have h1' : isV1Card j = false := Bool.eq_false_iff.mpr h1
      cases hd : j.get? (jstr "data") with
      | none =>
        exact ⟨mkV2Card (extractCharacterData j),
          by simp [parseCharacterCard, hv2, h1', hobj, hd,
            parseRootFallback, hname]⟩
      | some d =>
        have hdnull : d ≠ .null := fun h => hdn (h ▸ hd)
        have hnn : d.isNull = false := Json.isNull_eq_false_of_ne hdnull
        by_cases hto : jsTypeofObject d = true
        · by_cases hnm : d.hasField (jstr "name") = true
          · exact ⟨mkV2Card (extractCharacterData d),
              by simp [parseCharacterCard, hv2, h1', hobj, hd, hto, hnn, hnm]⟩
          · have hnm' : d.hasField (jstr "name") = false :=
              Bool.eq_false_iff.mpr hnm
            exact ⟨mkV2Card (extractCharacterData j),
              by simp [parseCharacterCard, hv2, h1', hobj, hd, hto, hnn,
                hnm', parseRootFallback, hname]⟩
        · have hto' : jsTypeofObject d = false := Bool.eq_false_iff.mpr hto
          exact ⟨mkV2Card (extractCharacterData j),
            by simp [parseCharacterCard, hv2, h1', hobj, hd, hto',
              parseRootFallback, hname]⟩
  · intro j hv2 hdata hname
    have htr : (Json.str []).truthy = false := rfl
    simp [parseCharacterCard, hv2, validateV2Card, hdata, hname, htr]

/-- Generation-1-shaped object with an empty name. -/
def v1EmptyName : Json := .obj (objOfFields
  [("name", some (.str [])),
   ("description", some (.str (jstr "d"))),
   ("first_mes", some (.str (jstr "h")))])

/-- Generation-2 card with an empty `data.name`. -/
def v2EmptyName : Json :=
  mkV2Card (.obj (objOfFields [("name", some (.str []))]))

/-- C10 witness: the concrete empty-name inputs on both accepting paths
and the rejecting one. -/
theorem C10_empty_name_asymmetry_witness :
    (parseCharacterCard v1EmptyName = .ok (convertV1ToV2 v1EmptyName) ∧
      ((convertV1ToV2 v1EmptyName).getD (jstr "data")).get? (jstr "name") =
        some (.str [])) ∧
    (∃ card, parseCharacterCard v1EmptyName = .ok card) ∧
    parseCharacterCard v2EmptyName =
      .error (jstr "Character name is required") :=
  ⟨C10_empty_name_asymmetry.1 v1EmptyName (by decide) rfl,
   C10_empty_name_asymmetry.2.1 v1EmptyName (by decide) (by decide) (by decide)
     (fun h => Option.noConfusion h),
   C10_empty_name_asymmetry.2.2 v2EmptyName (by decide) (by decide) rfl⟩

end Codec
